import Mathlib

/-!
Shallow embedding of the `dac.core` node/container framework
(`dac/core/__init__.py`) and of the action invocation sequences in
`dac/gui/__init__.py` (`ActionListWidget.run_action`, `cb_quickaction`).

Python values that flow through construct configs and save configs are
modelled by the mutual inductive `PValue`/`PList`/`PDict`: basic scalars
(int, bool, str), `None`, lists, tuples, dicts with string keys, and an
opaque constructor `vobj` standing for any other live Python object
(carrying only its type name, which is all the code ever reads from it via
`type(v).__name__`).  Python `dict`s with string keys are modelled as
association lists with the usual insertion-order semantics: updating an
existing key keeps its position, a new key is appended at the end.

Object identity (Python `is`) is modelled by a numeric `oid` carried by
every `DataNode`; the distinguished sentinel `GCK` is a separate
constructor of `CtxKey`.
-/

namespace DAC

mutual

inductive PValue where
  | vint (n : Int)
  | vbool (b : Bool)
  | vstr (s : String)
  | vnone
  | vobj (typeName : String)
  | vlist (l : PList)
  | vtuple (l : PList)
  | vdict (d : PDict)
  deriving DecidableEq, Repr

inductive PList where
  | nil
  | cons (v : PValue) (l : PList)
  deriving DecidableEq, Repr

inductive PDict where
  | nil
  | cons (k : String) (v : PValue) (d : PDict)
  deriving DecidableEq, Repr

end

/-- Association list modelling a Python `dict[str, value]` at the outer
(config / attribute) level. -/
abbrev AList := List (String × PValue)

/-- Python `d[k]` / `d.get(k)`: first (and, for genuine dicts, only)
binding of `k`. -/
def dget {α : Type} (d : List (String × α)) (k : String) : Option α :=
  match d with
  | [] => none
  | (k1, v) :: rest => if k1 = k then some v else dget rest k

/-- Python `k in d`. -/
def dhas {α : Type} (d : List (String × α)) (k : String) : Bool :=
  match d with
  | [] => false
  | (k1, _) :: rest => k1 = k || dhas rest k

/-- Python `d[k] = v`: update in place (first occurrence) when the key
exists, append otherwise. -/
def dset {α : Type} (d : List (String × α)) (k : String) (v : α) : List (String × α) :=
  match d with
  | [] => [(k, v)]
  | kv :: rest => if kv.1 = k then (k, v) :: rest else kv :: dset rest k v

/-- Python `del d[k]` (on a genuine dict the key occurs once; we erase all
occurrences). -/
def ddel {α : Type} (d : List (String × α)) (k : String) : List (String × α) :=
  d.filter (fun kv => kv.1 ≠ k)

/-- Python `{**d, **e}` / successive insertions of `e` into `d`. -/
def dmerge (d e : AList) : AList :=
  e.foldl (fun acc kv => dset acc kv.1 kv.2) d

/-- Python `s.startswith("<") and s.endswith(">")`, the test inside
`DataNode.ContainsOnlyBasicTypes`. -/
def isPlaceholderStr (s : String) : Bool :=
  match s.data with
  | [] => false
  | c :: rest => c = '<' && ((c :: rest).getLast (by simp) = '>')

/-- Python `k.startswith("_")`, the privacy test in
`DataNode.get_construct_config`. -/
def isPrivateKey (k : String) : Bool :=
  match k.data with
  | [] => false
  | c :: _ => c = '_'

mutual

/-- `DataNode.Value2BasicTypes` (`dac/core/__init__.py` lines 47-56):
basic scalars pass through, lists and tuples both become lists, dicts
recurse on values, everything else (including `None`, which is not one of
`BASICTYPES`) becomes the placeholder string `"<TypeName>"`. -/
def Value2BasicTypes : PValue → PValue
  | .vint n => .vint n
  | .vbool b => .vbool b
  | .vstr s => .vstr s
  | .vnone => .vstr "<NoneType>"
  | .vobj t => .vstr ("<" ++ t ++ ">")
  | .vlist l => .vlist (Value2BasicList l)
  | .vtuple l => .vlist (Value2BasicList l)
  | .vdict d => .vdict (Value2BasicDict d)

def Value2BasicList : PList → PList
  | .nil => .nil
  | .cons v l => .cons (Value2BasicTypes v) (Value2BasicList l)

def Value2BasicDict : PDict → PDict
  | .nil => .nil
  | .cons k v d => .cons k (Value2BasicTypes v) (Value2BasicDict d)

end

mutual

/-- `DataNode.ContainsOnlyBasicTypes` (lines 58-70): rejects exactly the
strings shaped like `"<...>"`, recursing through lists/tuples and dict
values; every other value -- including `None` and arbitrary live objects,
which fall through all the `isinstance` branches -- returns `True`. -/
def ContainsOnlyBasicTypes : PValue → Bool
  | .vstr s => !(isPlaceholderStr s)
  | .vlist l => ContainsOnlyBasicTypesList l
  | .vtuple l => ContainsOnlyBasicTypesList l
  | .vdict d => ContainsOnlyBasicTypesDict d
  | _ => true

def ContainsOnlyBasicTypesList : PList → Bool
  | .nil => true
  | .cons v l => ContainsOnlyBasicTypes v && ContainsOnlyBasicTypesList l

def ContainsOnlyBasicTypesDict : PDict → Bool
  | .nil => true
  | .cons _ v d => ContainsOnlyBasicTypes v && ContainsOnlyBasicTypesDict d

end

/-- A `DataNode` instance.  `attrs` is the full `__dict__` in insertion
order: `NodeBase.__init__` puts `_hash`, `_construct_config`, `name`,
`_uuid` first, then the subclass constructor adds its own public fields.
`cls` is the concrete class (Python `type(node)`), `oid` models object
identity. -/
@[ext]
structure DataNode where
  cls : String
  oid : Nat
  attrs : AList
  deriving DecidableEq, Repr

/-- Constructing `data_class(name=..., uuid=...)`: `NodeBase.__init__`
attribute layout followed by the subclass's own field defaults. -/
def mkDataNode (cls : String) (defaults : AList) (name uuid : String) (oid : Nat) : DataNode :=
  { cls := cls
    oid := oid
    attrs := ("_hash", .vnone) :: ("_construct_config", .vdict .nil)
      :: ("name", .vstr name) :: ("_uuid", .vstr uuid) :: defaults }

/-- Python `node.name` (reads `__dict__["name"]`; in every state the code
produces this is a string). -/
def DataNode.nodeName (d : DataNode) : String :=
  match dget d.attrs "name" with
  | some (.vstr s) => s
  | _ => ""

/-- Python `node.uuid` (property reading `self._uuid`). -/
def DataNode.nodeUuid (d : DataNode) : String :=
  match dget d.attrs "_uuid" with
  | some (.vstr s) => s
  | _ => ""

/-- `DataNode.get_construct_config` (lines 72-78): every non-underscore
`__dict__` entry, value run through `Value2BasicTypes`. -/
def DataNode.get_construct_config (d : DataNode) : AList :=
  d.attrs.filterMap (fun kv =>
    if isPrivateKey kv.1 then none else some (kv.1, Value2BasicTypes kv.2))

/-- `DataNode.apply_construct_config` (lines 80-83): for each incoming
entry, overwrite when the key already exists in `__dict__` (underscore or
not) and the value passes `ContainsOnlyBasicTypes`. -/
def DataNode.apply_construct_config (d : DataNode) (cfg : AList) : DataNode :=
  cfg.foldl (fun d kv =>
    if dhas d.attrs kv.1 && ContainsOnlyBasicTypes kv.2 then
      { d with attrs := dset d.attrs kv.1 kv.2 }
    else d) d

/-- `NodeBase.get_save_config` for a data node (lines 34-41):
`{"_uuid_": ..., "_class_": ..., **construct_config}`. -/
def DataNode.get_save_config (d : DataNode) : AList :=
  dmerge [("_uuid_", .vstr d.nodeUuid), ("_class_", .vstr d.cls)] d.get_construct_config

/-- A context key: the distinguished sentinel `GCK` or a `DataNode`.  The
`node` form carries the referenced object's identity (`oid`) and its
immutable `_uuid` (so that `self.context_key.uuid` is readable without the
container: Python holds the object itself). -/
inductive CtxKey where
  | gck
  | node (oid : Nat) (uuid : String)
  deriving DecidableEq, Repr

/-- Python `is` on context keys (object identity). -/
def CtxKey.sameObj : CtxKey → CtxKey → Bool
  | .gck, .gck => true
  | .node o1 _, .node o2 _ => o1 = o2
  | _, _ => false

/-- Identity of the underlying `DataNode`, `none` for `GCK`. -/
def CtxKey.oidOf : CtxKey → Option Nat
  | .gck => none
  | .node o _ => some o

mutual

/-- A parameter annotation, as the code dispatches on it in
`Annotation2Config` and `_get_value_of_annotation`: a DataNode subclass
(identified by its concrete class name), an Enum subclass (with its member
names), a parametrized `list[...]`/`tuple[...]` generic alias, any other
plain class (`basic`, e.g. `float`), or `inspect._empty` (no annotation).
Named-tuple annotations and registered type agencies are not modelled (no
claim exercises them). -/
inductive Ann where
  | empty
  | basic (typeName : String)
  | enum (ename : String) (members : List String)
  | dataNode (cls : String)
  | listOf (a : Ann)
  | tupleOf (args : AnnList)
  deriving DecidableEq, Repr

inductive AnnList where
  | nil
  | cons (a : Ann) (l : AnnList)
  deriving DecidableEq, Repr

end

/-- Python `ann.__name__` as the code reads it on a non-generic class. -/
def Ann.annName : Ann → String
  | .empty => "_empty"
  | .basic t => t
  | .enum e _ => e
  | .dataNode c => c
  | .listOf _ => "list"
  | .tupleOf _ => "tuple"

mutual

/-- `ActionNode.Annotation2Config` (lines 108-118): generic aliases recurse
over their arguments, everything else becomes `"<TypeName>"`. -/
def Annotation2Config : Ann → PValue
  | .listOf a => .vlist (.cons (Annotation2Config a) .nil)
  | .tupleOf args => .vlist (Annotation2ConfigList args)
  | a => .vstr ("<" ++ a.annName ++ ">")

def Annotation2ConfigList : AnnList → PList
  | .nil => .nil
  | .cons a l => .cons (Annotation2Config a) (Annotation2ConfigList l)

end

/-- `ActionNode.ActionStatus` (lines 102-106). -/
inductive ActionStatus where
  | INIT
  | CONFIGURED
  | COMPLETE
  | FAILED
  deriving DecidableEq, Repr

/-- One parameter of an action's call signature: its default (`none`
models `inspect._empty`, i.e. no default) and its annotation.  Enum-member
defaults are outside the modelled value universe (the seeding code would
store them by name; no modelled action uses one). -/
@[ext]
structure SigParam where
  default : Option PValue
  ann : Ann
  deriving DecidableEq, Repr

/-- The per-type data of a concrete `ActionNode` subclass: `CAPTION`, the
memoized `_SIGNATURE` (parameters in declaration order, including
`"self"`), and the `__name__` of the return annotation (`none` models
`inspect._empty`). -/
@[ext]
structure ActionClass where
  caption : String
  sigParams : List (String × SigParam)
  retAnn : Option String
  deriving DecidableEq, Repr

/-- An `ActionNode` instance.  The instance carries its class data `spec`
(Python reads `_SIGNATURE`/`CAPTION` off the instance's type);
`construct_config` is `self._construct_config`. -/
@[ext]
structure ActionNode where
  cls : String
  spec : ActionClass
  uuid : String
  name : String
  status : ActionStatus
  out_name : Option String
  construct_config : AList
  context_key : CtxKey
  deriving DecidableEq, Repr

/-- `ActionNode.__init__` (lines 120-127): the name is seeded from
`CAPTION`, status starts at `INIT`, `out_name` at `None`, and
`_construct_config` at `{}` (from `NodeBase.__init__`). -/
def mkActionNode (cls : String) (spec : ActionClass) (context_key : CtxKey)
    (uuid : String) : ActionNode :=
  { cls := cls
    spec := spec
    uuid := uuid
    name := spec.caption
    status := .INIT
    out_name := none
    construct_config := []
    context_key := context_key }

/-- The seeding loop of `ActionNode.get_construct_config` (lines 136-148):
defaults verbatim, else the annotation hint, else `"<Any>"`. -/
def seedConfig (params : List (String × SigParam)) : AList :=
  params.foldl (fun cfg kp =>
    if kp.1 = "self" then cfg
    else match kp.2.default with
      | some d => dset cfg kp.1 d
      | none => match kp.2.ann with
        | .empty => dset cfg kp.1 (.vstr "<Any>")
        | a => dset cfg kp.1 (Annotation2Config a)) []

/-- `ActionNode.get_construct_config` (lines 134-159).  The first call on
an empty stored config seeds `_construct_config` and `out_name` from the
signature -- a mutation of the node -- so the model returns the updated
node alongside the config. -/
def ActionNode.get_construct_config (a : ActionNode) : AList × ActionNode :=
  let a1 : ActionNode :=
    if a.construct_config = [] then
      { a with
        construct_config := seedConfig a.spec.sigParams
        out_name := match a.spec.retAnn with
          | some r => if r ≠ "list" then some ("<" ++ r ++ ">") else a.out_name
          | none => a.out_name }
    else a
  let com1 := dmerge [("name", .vstr a1.name)] a1.construct_config
  let com2 := match a1.out_name with
    | some o => dset com1 "out_name" (.vstr o)
    | none => com1
  (com2, a1)

/-- `ActionNode.apply_construct_config` (lines 161-173): adopt
`name`/`out_name` when present, store the whole incoming dict as the new
`_construct_config` (the `del` lines are commented out in the source, so
`name`/`out_name` stay inside it), and force status to `CONFIGURED`.
Configs of interest carry strings under `name`/`out_name`; a non-string
there is left unadopted in the model (Python would store the raw value). -/
def ActionNode.apply_construct_config (a : ActionNode) (cfg : AList) : ActionNode :=
  let a1 := match dget cfg "name" with
    | some (.vstr s) => { a with name := s }
    | _ => a
  let a2 := match dget cfg "out_name" with
    | some (.vstr s) => { a1 with out_name := some s }
    | _ => a1
  { a2 with construct_config := cfg, status := .CONFIGURED }

/-- `ActionNode.get_save_config` (lines 175-181): the base save config
plus `"_context_"` (the context node's uuid) unless the key is `GCK`. -/
def ActionNode.get_save_config (a : ActionNode) : AList × ActionNode :=
  let (cc, a1) := a.get_construct_config
  let base := dmerge [("_uuid_", .vstr a.uuid), ("_class_", .vstr a.cls)] cc
  let cfg := match a.context_key with
    | .gck => base
    | .node _ u => dset base "_context_" (.vstr u)
  (cfg, a1)

/-- A `DataContext` (lines 191-221): `dict[type[DataNode], dict[str, DataNode]]`,
with classes identified by name. -/
abbrev DataContext := List (String × List (String × DataNode))

/-- `DataContext.add_node` (lines 202-207): insert/replace under
`(type(node), node.name)`. -/
def DataContext.add_node (ctx : DataContext) (d : DataNode) : DataContext :=
  match dget ctx d.cls with
  | some bucket => dset ctx d.cls (dset bucket d.nodeName d)
  | none => ctx ++ [(d.cls, [(d.nodeName, d)])]

/-- `DataContext.get_node_of_type` (lines 209-213): `self[type][name]`,
`None` on `KeyError`. -/
def DataContext.get_node_of_type (ctx : DataContext) (node_name cls : String) : Option DataNode :=
  match dget ctx cls with
  | some bucket => dget bucket node_name
  | none => none

/-- `DataContext.NodeIter` (lines 196-200): all nodes, bucket by bucket,
insertion order within each bucket. -/
def DataContext.nodeIter (ctx : DataContext) : List DataNode :=
  (ctx.map (fun b => b.2.map Prod.snd)).flatten

/-- `DataContext.rename_node_to` (lines 215-221): best-effort delete of
the old `(type, name)` entry, mutate the node's name, re-add.  Returns the
updated context together with the renamed node (the same object in
Python). -/
def DataContext.rename_node_to (ctx : DataContext) (d : DataNode) (new_name : String) :
    DataContext × DataNode :=
  let ctx1 := match dget ctx d.cls with
    | some bucket => dset ctx d.cls (ddel bucket d.nodeName)
    | none => ctx
  let d1 := { d with attrs := dset d.attrs "name" (.vstr new_name) }
  (DataContext.add_node ctx1 d1, d1)

/-- The `Container` state (lines 223-231): the flat action list, the
per-key contexts (a `defaultdict`, modelled as an insertion-ordered
association list over `CtxKey`), and the current-context cursor. -/
@[ext]
structure Container where
  actions : List ActionNode
  contexts : List (CtxKey × DataContext)
  current_key : CtxKey
  deriving DecidableEq, Repr

/-- `Container.__init__`. -/
def Container.empty : Container :=
  { actions := [], contexts := [], current_key := .gck }

/-- Read `self.contexts[key]` (`defaultdict`: an absent key denotes the
empty context). -/
def Container.getContext (c : Container) (k : CtxKey) : DataContext :=
  match c.contexts.find? (fun kv => kv.1.sameObj k) with
  | some kv => kv.2
  | none => []

/-- Write back `self.contexts[key]` (created at the end on first use, as
the `defaultdict` does). -/
def Container.setContext (c : Container) (k : CtxKey) (ctx : DataContext) : Container :=
  if c.contexts.any (fun kv => kv.1.sameObj k) then
    { c with contexts := c.contexts.map (fun kv => if kv.1.sameObj k then (kv.1, ctx) else kv) }
  else
    { c with contexts := c.contexts ++ [(k, ctx)] }

/-- `Container.GlobalContext`. -/
def Container.GlobalContext (c : Container) : DataContext :=
  c.getContext .gck

/-- `Container.CurrentContext`. -/
def Container.CurrentContext (c : Container) : DataContext :=
  c.getContext c.current_key

/-- `Container.get_node_of_type` (lines 245-252): the current context
first (a found `DataNode` is always truthy: no `__bool__`/`__len__`
override exists in the repository), then -- unless the current context is
the Global one -- the Global context. -/
def Container.get_node_of_type (c : Container) (node_name cls : String) : Option DataNode :=
  match c.CurrentContext.get_node_of_type node_name cls with
  | some n => some n
  | none =>
    if !(c.current_key.sameObj .gck) then
      c.GlobalContext.get_node_of_type node_name cls
    else
      none

/-- `Container.activate_context` (lines 254-256). -/
def Container.activate_context (c : Container) (k : CtxKey) : Container :=
  { c with current_key := k }

/-- `Container.remove_global_node` (lines 261-265): delete the `(type,
name)` entry from the Global bucket (the theorems assume the node is
present, as `del` would otherwise raise `KeyError`), delete the context
owned by the node if any, and drop every action whose `context_key` is
that object. -/
def Container.remove_global_node (c : Container) (node_object : DataNode) : Container :=
  let g := c.GlobalContext
  let g1 := match dget g node_object.cls with
    | some bucket => dset g node_object.cls (ddel bucket node_object.nodeName)
    | none => g
  let c1 := c.setContext .gck g1
  let c2 := { c1 with
    contexts := c1.contexts.filter (fun kv => kv.1.oidOf ≠ some node_object.oid) }
  { c2 with
    actions := c2.actions.filter (fun a => a.context_key.oidOf ≠ some node_object.oid) }

mutual

/-- A resolved (live) parameter value as produced by
`_get_value_of_annotation`: a plain value passed through, a live
`DataNode`, an enum member, or a Python list of resolved values. -/
inductive RValue where
  | pv (v : PValue)
  | node (n : DataNode)
  | enumMember (ename member : String)
  | rlist (l : RList)
  deriving DecidableEq, Repr

inductive RList where
  | nil
  | cons (v : RValue) (l : RList)
  deriving DecidableEq, Repr

end

/-- The exceptions the resolution/load code can raise. -/
inductive PyErr where
  | nodeNotFound (msg : String)
  | notImplementedErr
  | keyError (k : String)
  | paramNotProvided (msg : String)
  | typeError
  | importError (classPath : String)
  deriving DecidableEq, Repr

mutual

/-- `Container._get_value_of_annotation` (lines 267-297), dispatch in
source order: `None` passes through; Enum subclasses resolve the stored
member name (`ann[config]`, `KeyError` when unknown; live enum members do
not occur among modelled values); DataNode subclasses look the name up via
`Container.get_node_of_type` and raise `NodeNotFoundError` when absent (a
non-string hashable name never matches a stored display name, so it also
raises `NodeNotFoundError`; an unhashable one -- list or dict -- raises
`TypeError` from the dict lookup itself);
`list[...]`/`tuple[...]` generic aliases recurse (checking them against
`Enum`/`DataNode` with `issubclass` yields `False` without raising, since
the alias forwards `__bases__` to its origin); registered type agencies
are not modelled (none is registered in the embedded universe); everything
else is passed through unchanged.  Iterating a non-list/non-tuple config
under a generic alias is modelled as `TypeError` (Python would also
iterate strings/dicts; no claim exercises that). -/
def getValueOfAnnotation (c : Container) (ann : Ann) (config : PValue) :
    Except PyErr RValue :=
  if config = .vnone then .ok (.pv .vnone)
  else
    match ann with
    | .enum e members =>
      match config with
      | .vstr s => if members.contains s then .ok (.enumMember e s) else .error (.keyError s)
      | _ => .error (.keyError "")
    | .dataNode cls =>
      match config with
      | .vstr s =>
        match c.get_node_of_type s cls with
        | some n => .ok (.node n)
        | none => .error (.nodeNotFound ("Node '" ++ s ++ "' of '" ++ cls ++ "' not found."))
      | .vlist _ => .error .typeError
      | .vdict _ => .error .typeError
      | _ => .error (.nodeNotFound ("Node of '" ++ cls ++ "' not found."))
    | .listOf a =>
      match config with
      | .vlist l => (resolveListElems c a l).map .rlist
      | .vtuple l => (resolveListElems c a l).map .rlist
      | _ => .error .typeError
    | .tupleOf args =>
      match config with
      | .vlist l => (resolveZip c args l).map .rlist
      | .vtuple l => (resolveZip c args l).map .rlist
      | _ => .error .typeError
    | .basic _ => .ok (.pv config)
    | .empty => .ok (.pv config)
termination_by (sizeOf ann, 1, 0)

/-- The `list[...]` loop (lines 280-287): resolve each element, silently
dropping the ones that raise `NodeNotFoundError`; any other exception
propagates. -/
def resolveListElems (c : Container) (a : Ann) (l : PList) : Except PyErr RList :=
  match l with
  | .nil => .ok .nil
  | .cons v rest =>
    match getValueOfAnnotation c a v with
    | .error (.nodeNotFound _) => resolveListElems c a rest
    | .error e => .error e
    | .ok r =>
      match resolveListElems c a rest with
      | .error e => .error e
      | .ok rs => .ok (.cons r rs)
termination_by (1 + sizeOf a, 0, sizeOf l)

/-- The `tuple[...]` comprehension (line 289): positional zip, errors
propagate. -/
def resolveZip (c : Container) (args : AnnList) (l : PList) : Except PyErr RList :=
  match args, l with
  | .cons a args1, .cons v rest =>
    match getValueOfAnnotation c a v with
    | .error e => .error e
    | .ok r =>
      match resolveZip c args1 rest with
      | .error e => .error e
      | .ok rs => .ok (.cons r rs)
  | _, _ => .ok .nil
termination_by (sizeOf args, 0, sizeOf l)

end

mutual

/-- An action signature as `prepare_params_for_action` receives it: a real
`inspect.Signature` (flat parameter list) or, for sequence actions, a dict
of sub-action signatures. -/
inductive Sig where
  | flat (params : List (String × SigParam))
  | nested (subs : SubSigs)
  deriving DecidableEq, Repr

inductive SubSigs where
  | nil
  | cons (subactName : String) (s : Sig) (rest : SubSigs)
  deriving DecidableEq, Repr

end

/-- Resolved parameter mappings (the nested case yields nested
mappings). -/
inductive PDone where
  | flatDone (params : List (String × RValue))
  | nestedDone (subs : List (String × PDone))

/-- Conversion of a stored sub-config value (a dict) into the association
list handed to the recursive call; `construct_config.get(subact_name, {})`
defaults to the empty dict. -/
def PDict.toAList : PDict → AList
  | .nil => []
  | .cons k v d => (k, v) :: PDict.toAList d

mutual

/-- `Container.prepare_params_for_action` (lines 299-315).  Flat branch:
for every parameter except `self`, take the stored value, falling back to
the default; a missing value with no default raises
`Exception(f"Parameter '{key}' not provided.")`; otherwise resolve through
`_get_value_of_annotation`.  Note that a stored `None` is *not* missing:
it flows into resolution, which returns it unchanged.  Nested branch: one
recursive resolution per sub-action. -/
def Container.prepare_params_for_action (c : Container) (signature : Sig) (cfg : AList) :
    Except PyErr PDone :=
  match signature with
  | .flat ps => (prepareFlat c ps cfg).map .flatDone
  | .nested subs => (prepareSubs c subs cfg).map .nestedDone

def prepareFlat (c : Container) (ps : List (String × SigParam)) (cfg : AList) :
    Except PyErr (List (String × RValue)) :=
  match ps with
  | [] => .ok []
  | (key, p) :: rest =>
    if key = "self" then prepareFlat c rest cfg
    else
      match dget cfg key, p.default with
      | none, none => .error (.paramNotProvided ("Parameter '" ++ key ++ "' not provided."))
      | none, some d =>
        match getValueOfAnnotation c p.ann d with
        | .error e => .error e
        | .ok r =>
          match prepareFlat c rest cfg with
          | .error e => .error e
          | .ok rs => .ok ((key, r) :: rs)
      | some v, _ =>
        match getValueOfAnnotation c p.ann v with
        | .error e => .error e
        | .ok r =>
          match prepareFlat c rest cfg with
          | .error e => .error e
          | .ok rs => .ok ((key, r) :: rs)

def prepareSubs (c : Container) (subs : SubSigs) (cfg : AList) :
    Except PyErr (List (String × PDone)) :=
  match subs with
  | .nil => .ok []
  | .cons subactName s rest =>
    let subCfg := match dget cfg subactName with
      | some (.vdict d) => d.toAList
      | _ => []
    match c.prepare_params_for_action s subCfg with
    | .error e => .error e
    | .ok r =>
      match prepareSubs c rest cfg with
      | .error e => .error e
      | .ok rs => .ok ((subactName, r) :: rs)

end

/-- The persisted project structure `{"actions": [...], "global_nodes": [...]}`. -/
@[ext]
structure SaveConfig where
  actions : List AList
  global_nodes : List AList
  deriving DecidableEq, Repr

/-- `Container.get_save_config` (lines 317-324): one save config per
action (in list order; each call may seed that action's construct config,
so the updated container is returned too) and one per Global-context node
(in `NodeIter` order). -/
def Container.get_save_config (c : Container) : SaveConfig × Container :=
  let step := c.actions.foldl
    (fun (acc : List AList × List ActionNode) a =>
      let (cfg, a1) := a.get_save_config
      (acc.1 ++ [cfg], acc.2 ++ [a1])) ([], [])
  ({ actions := step.1
     global_nodes := c.GlobalContext.nodeIter.map DataNode.get_save_config },
   { c with actions := step.2 })

/-- Lookup table standing for `Container.GetClass` on data-node classes:
the class path resolves to the subclass's constructor field defaults, or
to `none` when the import fails. -/
abbrev DataClassTbl := String → Option AList

/-- Lookup table standing for `Container.GetClass` on action classes. -/
abbrev ActClassTbl := String → Option ActionClass

/-- State threaded through the global-node loop of `parse_save_config`:
the `uuid → instance` map `nodes`, the container under construction, the
(destructively mutated) input records, and the next fresh object id. -/
@[ext]
structure GLoad where
  nodes : List (String × DataNode)
  container : Container
  recordsOut : List AList
  nextOid : Nat
  deriving Repr

/-- The global-node loop of `Container.parse_save_config` (lines 331-344):
pop `_class_` and `_uuid_` (`KeyError` when absent; a non-string value is
modelled as `TypeError`), resolve the class (propagating the import
failure), construct a `"[Default]"`-named instance with the persisted
uuid, apply the rest of the record, and register the node in the map and
the Global context. -/
def parseGlobals (tbl : DataClassTbl) (st : GLoad) : List AList → Except PyErr GLoad
  | [] => .ok st
  | r :: rest =>
    match dget r "_class_" with
    | some (.vstr cp) =>
      let r1 := ddel r "_class_"
      match dget r1 "_uuid_" with
      | some (.vstr uuid) =>
        let r2 := ddel r1 "_uuid_"
        match tbl cp with
        | none => .error (.importError cp)
        | some defaults =>
          let node := (mkDataNode cp defaults "[Default]" uuid st.nextOid).apply_construct_config r2
          parseGlobals tbl
            { nodes := dset st.nodes uuid node
              container := st.container.setContext .gck (st.container.GlobalContext.add_node node)
              recordsOut := st.recordsOut ++ [r2]
              nextOid := st.nextOid + 1 } rest
      | some _ => .error .typeError
      | none => .error (.keyError "_uuid_")
    | some _ => .error .typeError
    | none => .error (.keyError "_class_")

/-- The action loop of `Container.parse_save_config` (lines 346-366): pop
`_class_` and `_uuid_`, resolve the class (the import failure propagates
even for records that would later be skipped, since `GetClass` runs before
the `_context_` check), then: a record carrying `_context_` whose id is
absent from the node map is silently skipped (its mutated record keeps the
`_context_` key); a resolvable `_context_` binds the action to that node
and is popped; no `_context_` binds to `GCK`.  The surviving record is
applied as the new action's construct config and the action appended. -/
def parseActions (tbl : ActClassTbl) (nodes : List (String × DataNode))
    (c : Container) (recs : List AList) : List AList → Except PyErr (Container × List AList)
  | [] => .ok (c, recs)
  | r :: rest =>
    match dget r "_class_" with
    | some (.vstr cp) =>
      let r1 := ddel r "_class_"
      match dget r1 "_uuid_" with
      | some (.vstr uuid) =>
        let r2 := ddel r1 "_uuid_"
        match tbl cp with
        | none => .error (.importError cp)
        | some spec =>
          match dget r2 "_context_" with
          | some (.vstr cu) =>
            match dget nodes cu with
            | some n =>
              let r3 := ddel r2 "_context_"
              let a := (mkActionNode cp spec (.node n.oid n.nodeUuid) uuid).apply_construct_config r3
              parseActions tbl nodes { c with actions := c.actions ++ [a] } (recs ++ [r3]) rest
            | none => parseActions tbl nodes c (recs ++ [r2]) rest
          | some _ => parseActions tbl nodes c (recs ++ [r2]) rest
          | none =>
            let a := (mkActionNode cp spec .gck uuid).apply_construct_config r2
            parseActions tbl nodes { c with actions := c.actions ++ [a] } (recs ++ [r2]) rest
      | some _ => .error .typeError
      | none => .error (.keyError "_uuid_")
    | some _ => .error .typeError
    | none => .error (.keyError "_class_")

/-- `Container.parse_save_config` (lines 326-368): load global nodes, then
actions.  Returns the loaded container, the destructively mutated config
(the caller's dict objects after the `del`s), and the next fresh object
id; `oid0` supplies fresh identities for the newly constructed objects. -/
def Container.parse_save_config (tblD : DataClassTbl) (tblA : ActClassTbl)
    (cfg : SaveConfig) (oid0 : Nat) : Except PyErr (Container × SaveConfig × Nat) :=
  match parseGlobals tblD
      { nodes := [], container := Container.empty, recordsOut := [], nextOid := oid0 }
      cfg.global_nodes with
  | .error e => .error e
  | .ok st =>
    match parseActions tblA st.nodes st.container [] cfg.actions with
    | .error e => .error e
    | .ok (c, arecs) => .ok (c, { actions := arecs, global_nodes := st.recordsOut }, st.nextOid)

/-- The observable steps of one action invocation. -/
inductive RunEv where
  | preRun
  | callBody
  | postRun
  | completedCb
  deriving DecidableEq, Repr

/-- Sequential execution of straight-line statements with Python exception
semantics: the raising statement is entered, then the remainder of the
sequence is abandoned and the exception propagates (`true` in the second
component).  None of the call sites wraps the sequence in
`try`/`finally`. -/
def execStmts (raises : RunEv → Bool) : List RunEv → List RunEv × Bool
  | [] => ([], false)
  | s :: rest =>
    if raises s then ([s], true)
    else
      let (t, e) := execStmts raises rest
      (s :: t, e)

/-- `ActionListWidget.run_action`, synchronous branch
(`dac/gui/__init__.py` lines 601-605): `pre_run()`; `rst = action(**params)`;
`post_run()`; `completed(rst)` -- written sequentially, no `try`/`finally`. -/
def run_action_sync_stmts : List RunEv := [.preRun, .callBody, .postRun, .completedCb]

/-- The worker closure `fn` of `ActionListWidget.run_action` for
process actions (lines 592-597): `pre_run()`; `rst = action(**p)`;
`post_run()` -- sequential, no `try`/`finally`. -/
def run_action_thread_fn_stmts : List RunEv := [.preRun, .callBody, .postRun]

/-- `cb_quickaction` (lines 392-400): `act.pre_run()`; `act(**params)`;
`act.post_run()` -- sequential, no `try`/`finally`. -/
def cb_quickaction_stmts : List RunEv := [.preRun, .callBody, .postRun]

/-- `Context.add_node` on the Global context, as the GUI's create command
does (`cb_creation`, gui lines 422-425, with the user-chosen name passed
to the constructor). -/
def Container.addGlobalNode (c : Container) (d : DataNode) : Container :=
  c.setContext .gck (c.GlobalContext.add_node d)

/-- `GlobalContext.rename_node_to` reached from the node editor
(`action_apply_node_config`, gui lines 505-513). -/
def Container.renameGlobalNode (c : Container) (d : DataNode) (newName : String) : Container :=
  c.setContext .gck (c.GlobalContext.rename_node_to d newName).1

/-- All `DataNode` objects held in the container's contexts. -/
def Container.allNodes (c : Container) : List DataNode :=
  (c.contexts.map (fun kv => kv.2.nodeIter)).flatten

/-- Object ids in use (nodes plus context keys plus action bindings):
`uuid4`-style freshness of a newly constructed object avoids all of
them. -/
def Container.usedOids (c : Container) : List Nat :=
  c.allNodes.map DataNode.oid
    ++ c.contexts.filterMap (fun kv => kv.1.oidOf)
    ++ c.actions.filterMap (fun a => a.context_key.oidOf)

/-- Uuids in use. -/
def Container.usedUuids (c : Container) : List String :=
  c.allNodes.map DataNode.nodeUuid ++ c.actions.map ActionNode.uuid

/-- Container states reachable through the public operations (a sound
subset: creating a node with a user-chosen name and adding it to the
Global context, renaming, creating an action bound to the current key,
activating a context, removing a global node).  Fresh objects get unused
ids and uuids, as `uuid4` does. -/
inductive Reach (tblD : DataClassTbl) : Container → Prop where
  | init : Reach tblD Container.empty
  | create (c : Container) (cls : String) (defaults : AList) (name uuid : String) (oid : Nat) :
      Reach tblD c → tblD cls = some defaults →
      oid ∉ c.usedOids → uuid ∉ c.usedUuids →
      Reach tblD (c.addGlobalNode (mkDataNode cls defaults name uuid oid))
  | rename (c : Container) (cls name : String) (d : DataNode) (newName : String) :
      Reach tblD c → c.GlobalContext.get_node_of_type name cls = some d →
      Reach tblD (c.renameGlobalNode d newName)
  | createAction (c : Container) (cls : String) (spec : ActionClass) (uuid : String) :
      Reach tblD c → uuid ∉ c.usedUuids →
      Reach tblD { c with actions := c.actions ++ [mkActionNode cls spec c.current_key uuid] }
  | activate (c : Container) (k : CtxKey) :
      Reach tblD c →
      (k = .gck ∨ ∃ d ∈ c.GlobalContext.nodeIter, k = .node d.oid d.nodeUuid) →
      Reach tblD (c.activate_context k)
  | remove (c : Container) (d : DataNode) :
      Reach tblD c → c.GlobalContext.get_node_of_type d.nodeName d.cls = some d →
      Reach tblD (c.remove_global_node d)

/-! ### Association-list lemmas -/

/-- Induction principle for `PList` alone (the mutual recursor
specialised with trivial motives on `PValue` and `PDict`). -/
theorem plist_induction {motive : PList → Prop} (hnil : motive .nil)
    (hcons : ∀ v l, motive l → motive (.cons v l)) (l : PList) : motive l :=
  @PList.rec (fun _ => True) motive (fun _ => True)
    (fun _ => True.intro) (fun _ => True.intro) (fun _ => True.intro) True.intro
    (fun _ => True.intro) (fun _ _ => True.intro) (fun _ _ => True.intro)
    (fun _ _ => True.intro)
    hnil (fun v l _ hl => hcons v l hl)
    True.intro (fun _ _ _ _ _ => True.intro)
    l

theorem dhas_eq_any {α : Type} (d : List (String × α)) (k : String) :
    dhas d k = d.any (fun kv => kv.1 = k) := by
  induction d with
  | nil => rfl
  | cons kv rest ih => simp [dhas, ih, List.any_cons]

theorem dget_eq_none_of_forall {α : Type} {d : List (String × α)} {k : String}
    (h : ∀ kv ∈ d, kv.1 ≠ k) : dget d k = none := by
  induction d with
  | nil => rfl
  | cons kv rest ih =>
    simp only [dget]
    rw [if_neg (h kv (by simp))]
    exact ih (fun kv2 h2 => h kv2 (by simp [h2]))

theorem dget_eq_none_of_dhas_false {α : Type} {d : List (String × α)} {k : String}
    (h : dhas d k = false) : dget d k = none := by
  apply dget_eq_none_of_forall
  intro kv hkv
  rw [dhas_eq_any] at h
  simp only [List.any_eq_false] at h
  simpa using h kv hkv

theorem dhas_eq_false_of_dget_none {α : Type} {d : List (String × α)} {k : String}
    (h : dget d k = none) : dhas d k = false := by
  induction d with
  | nil => rfl
  | cons kv rest ih =>
    simp only [dget] at h
    by_cases hk : kv.1 = k
    · rw [if_pos hk] at h; cases h
    · rw [if_neg hk] at h
      simp [dhas, hk, ih h]

theorem dget_of_mem_nodup {α : Type} {d : List (String × α)} {k : String} {v : α}
    (hmem : (k, v) ∈ d) (hnodup : (d.map Prod.fst).Nodup) : dget d k = some v := by
  induction d with
  | nil => cases hmem
  | cons kv rest ih =>
    simp only [List.map_cons, List.nodup_cons] at hnodup
    rcases List.mem_cons.mp hmem with h | h
    · subst h; simp [dget]
    · have hne : kv.1 ≠ k := by
        intro he
        exact hnodup.1 (he ▸ (List.mem_map.mpr ⟨(k, v), h, rfl⟩))
      simp [dget, hne, ih h hnodup.2]

theorem dget_append {α : Type} (d e : List (String × α)) (k : String) :
    dget (d ++ e) k = match dget d k with | some v => some v | none => dget e k := by
  induction d with
  | nil => simp [dget]
  | cons kv rest ih =>
    by_cases hk : kv.1 = k
    · simp [dget, hk]
    · simp [dget, hk, ih]

theorem dget_dset_self {α : Type} (d : List (String × α)) (k : String) (v : α) :
    dget (dset d k v) k = some v := by
  induction d with
  | nil => simp [dset, dget]
  | cons kv rest ih =>
    by_cases hk : kv.1 = k
    · simp [dset, hk, dget]
    · simp [dset, hk, dget, ih]

theorem dget_dset_ne {α : Type} (d : List (String × α)) (k k2 : String) (v : α)
    (hne : k2 ≠ k) : dget (dset d k v) k2 = dget d k2 := by
  induction d with
  | nil => simp [dset, dget, Ne.symm hne]
  | cons kv rest ih =>
    by_cases hk : kv.1 = k
    · have h2 : kv.1 ≠ k2 := by rw [hk]; exact fun he => hne he.symm
      simp [dset, hk, dget, Ne.symm hne, h2]
    · by_cases hk2 : kv.1 = k2
      · simp [dset, hk, dget, hk2, hne]
      · simp [dset, hk, dget, hk2, ih]

theorem dget_ddel_self {α : Type} (d : List (String × α)) (k : String) :
    dget (ddel d k) k = none := by
  apply dget_eq_none_of_forall
  intro kv hkv
  have := List.of_mem_filter hkv
  simpa using this

theorem dget_ddel_ne {α : Type} (d : List (String × α)) (k k2 : String)
    (hne : k2 ≠ k) : dget (ddel d k) k2 = dget d k2 := by
  induction d with
  | nil => rfl
  | cons kv rest ih =>
    by_cases hk : kv.1 = k
    · have h2 : kv.1 ≠ k2 := by rw [hk]; exact fun he => hne he.symm
      rw [show ddel (kv :: rest) k = ddel rest k by simp [ddel, hk]]
      rw [ih]
      simp [dget, h2]
    · rw [show ddel (kv :: rest) k = kv :: ddel rest k by simp [ddel, hk]]
      by_cases hk2 : kv.1 = k2
      · simp [dget, hk2]
      · simp [dget, hk2, ih]

theorem dhas_append {α : Type} (d e : List (String × α)) (k : String) :
    dhas (d ++ e) k = (dhas d k || dhas e k) := by
  induction d with
  | nil => simp [dhas]
  | cons kv rest ih => simp [dhas, ih, Bool.or_assoc]

theorem dset_eq_append_of_dhas_false {α : Type} {d : List (String × α)} {k : String}
    (v : α) (h : dhas d k = false) : dset d k v = d ++ [(k, v)] := by
  induction d with
  | nil => rfl
  | cons kv rest ih =>
    simp only [dhas, Bool.or_eq_false_iff] at h
    have hk : kv.1 ≠ k := by simpa using h.1
    simp [dset, hk, ih h.2]

theorem dmerge_eq_append_of_disjoint {d e : AList}
    (h : ∀ kv ∈ e, dhas d kv.1 = false) (hnodup : (e.map Prod.fst).Nodup) :
    dmerge d e = d ++ e := by
  induction e generalizing d with
  | nil => simp [dmerge]
  | cons kv rest ih =>
    have h1 : dhas d kv.1 = false := h kv (by simp)
    show dmerge (dset d kv.1 kv.2) rest = d ++ kv :: rest
    rw [dset_eq_append_of_dhas_false kv.2 h1]
    rw [ih]
    · simp
    · intro kv2 h2
      rw [dhas_append]
      rw [h kv2 (by simp [h2])]
      simp only [List.map_cons, List.nodup_cons] at hnodup
      have hne : kv.1 ≠ kv2.1 := by
        intro he
        exact hnodup.1 (he ▸ List.mem_map.mpr ⟨kv2, h2, rfl⟩)
      simp [dhas]
      exact hne
    · simp only [List.map_cons, List.nodup_cons] at hnodup
      exact hnodup.2

theorem keys_dset_of_dhas_true {α : Type} {d : List (String × α)} {k : String}
    (v : α) (h : dhas d k = true) : (dset d k v).map Prod.fst = d.map Prod.fst := by
  induction d with
  | nil => simp [dhas] at h
  | cons kv rest ih =>
    by_cases hk : kv.1 = k
    · simp [dset, hk]
    · simp only [dhas, Bool.or_eq_true] at h
      rcases h with h | h


      · exact absurd (by simpa using h) hk
      · simp [dset, hk, ih h]

/-! ### Characterization of `DataNode.apply_construct_config` -/

/-- The pointwise effect of `apply_construct_config` on one `__dict__`
entry: the incoming value wins when present and accepted. -/
def applyFormula (cfg : AList) (av : String × PValue) : String × PValue :=
  match dget cfg av.1 with
  | some w => if ContainsOnlyBasicTypes w then (av.1, w) else av
  | none => av

theorem applyFormula_fst (cfg : AList) (av : String × PValue) :
    (applyFormula cfg av).1 = av.1 := by
  unfold applyFormula
  cases dget cfg av.1 with
  | none => rfl
  | some w =>
    by_cases hc : ContainsOnlyBasicTypes w <;> simp [hc]

theorem map_applyFormula_dset (attrs : AList) (kv : String × PValue) (rest : AList)
    (hnodup : (attrs.map Prod.fst).Nodup) (hk : kv.1 ∉ rest.map Prod.fst)
    (hc : ContainsOnlyBasicTypes kv.2 = true) (hhas : dhas attrs kv.1 = true) :
    (dset attrs kv.1 kv.2).map (applyFormula rest) = attrs.map (applyFormula (kv :: rest)) := by
  induction attrs with
  | nil => simp [dhas] at hhas
  | cons av attrs1 ih =>
    simp only [List.map_cons, List.nodup_cons] at hnodup
    have hrest_none : dget rest kv.1 = none := by
      apply dget_eq_none_of_forall
      intro kv2 h2 he
      exact hk (by rw [← he]; exact List.mem_map.mpr ⟨kv2, h2, rfl⟩)
    by_cases h1 : av.1 = kv.1
    · rw [show dset (av :: attrs1) kv.1 kv.2 = (kv.1, kv.2) :: attrs1 by simp [dset, h1]]
      simp only [List.map_cons]
      congr 1
      · show applyFormula rest (kv.1, kv.2) = applyFormula (kv :: rest) av
        unfold applyFormula
        rw [show dget (kv :: rest) av.1 = some kv.2 from by
          show (if kv.1 = av.1 then some kv.2 else dget rest av.1) = some kv.2
          rw [if_pos h1.symm]]
        rw [show dget rest (kv.1, kv.2).1 = none from hrest_none]
        simp [hc, h1]
      · apply List.map_congr_left
        intro av2 h2
        have hne : ¬ kv.1 = av2.1 := by
          intro he
          exact hnodup.1 (h1 ▸ (by rw [he]; exact List.mem_map.mpr ⟨av2, h2, rfl⟩))
        unfold applyFormula
        rw [show dget (kv :: rest) av2.1 = dget rest av2.1 from by
          show (if kv.1 = av2.1 then some kv.2 else dget rest av2.1) = dget rest av2.1
          rw [if_neg hne]]
    · rw [show dset (av :: attrs1) kv.1 kv.2 = av :: dset attrs1 kv.1 kv.2 by simp [dset, h1]]
      simp only [List.map_cons]
      congr 1
      · have hne : ¬ kv.1 = av.1 := fun he => h1 he.symm
        unfold applyFormula
        rw [show dget (kv :: rest) av.1 = dget rest av.1 from by
          show (if kv.1 = av.1 then some kv.2 else dget rest av.1) = dget rest av.1
          rw [if_neg hne]]
      · apply ih hnodup.2
        simp only [dhas, Bool.or_eq_true] at hhas
        rcases hhas with h | h
        · exact absurd (by simpa using h) h1
        · exact h

theorem map_applyFormula_cons_of_no_overwrite (attrs : AList) (kv : String × PValue)
    (rest : AList) (hk : kv.1 ∉ rest.map Prod.fst)
    (hskip : ContainsOnlyBasicTypes kv.2 = false ∨ dhas attrs kv.1 = false) :
    attrs.map (applyFormula rest) = attrs.map (applyFormula (kv :: rest)) := by
  apply List.map_congr_left
  intro av hav
  have hrest_none : dget rest kv.1 = none := by
    apply dget_eq_none_of_forall
    intro kv2 h2 he
    exact hk (by rw [← he]; exact List.mem_map.mpr ⟨kv2, h2, rfl⟩)
  unfold applyFormula
  by_cases h1 : kv.1 = av.1
  · rw [show dget (kv :: rest) av.1 = some kv.2 from by
      show (if kv.1 = av.1 then some kv.2 else dget rest av.1) = some kv.2
      rw [if_pos h1]]
    rw [show dget rest av.1 = none from h1 ▸ hrest_none]
    rcases hskip with hc | hh
    · simp [hc]
    · exfalso
      rw [dhas_eq_any] at hh
      simp only [List.any_eq_false] at hh
      exact hh av hav (decide_eq_true h1.symm)
  · rw [show dget (kv :: rest) av.1 = dget rest av.1 from by
      show (if kv.1 = av.1 then some kv.2 else dget rest av.1) = dget rest av.1
      rw [if_neg h1]]

theorem apply_construct_config_cls (d : DataNode) (cfg : AList) :
    (d.apply_construct_config cfg).cls = d.cls := by
  induction cfg generalizing d with
  | nil => rfl
  | cons kv rest ih =>
    show ((if dhas d.attrs kv.1 && ContainsOnlyBasicTypes kv.2 then _ else d).apply_construct_config rest).cls = _
    by_cases h : dhas d.attrs kv.1 && ContainsOnlyBasicTypes kv.2
    · rw [if_pos h, ih]
    · rw [if_neg h, ih]

theorem apply_construct_config_oid (d : DataNode) (cfg : AList) :
    (d.apply_construct_config cfg).oid = d.oid := by
  induction cfg generalizing d with
  | nil => rfl
  | cons kv rest ih =>
    show ((if dhas d.attrs kv.1 && ContainsOnlyBasicTypes kv.2 then _ else d).apply_construct_config rest).oid = _
    by_cases h : dhas d.attrs kv.1 && ContainsOnlyBasicTypes kv.2
    · rw [if_pos h, ih]
    · rw [if_neg h, ih]

theorem apply_construct_config_attrs (d : DataNode) (cfg : AList)
    (hattrs : (d.attrs.map Prod.fst).Nodup) (hcfg : (cfg.map Prod.fst).Nodup) :
    (d.apply_construct_config cfg).attrs = d.attrs.map (applyFormula cfg) := by
  induction cfg generalizing d with
  | nil =>
    show d.attrs = _
    rw [show d.attrs.map (applyFormula []) = d.attrs.map id from
      List.map_congr_left (fun av _ => rfl), List.map_id]
  | cons kv rest ih =>
    simp only [List.map_cons, List.nodup_cons] at hcfg
    show ((if dhas d.attrs kv.1 && ContainsOnlyBasicTypes kv.2 then _ else d).apply_construct_config rest).attrs = _
    cases hc : ContainsOnlyBasicTypes kv.2 with
    | false =>
      rw [if_neg (by simp)]
      rw [ih d hattrs hcfg.2]
      exact map_applyFormula_cons_of_no_overwrite d.attrs kv rest hcfg.1 (Or.inl hc)
    | true =>
      cases hh : dhas d.attrs kv.1 with
      | false =>
        rw [if_neg (by simp)]
        rw [ih d hattrs hcfg.2]
        exact map_applyFormula_cons_of_no_overwrite d.attrs kv rest hcfg.1 (Or.inr hh)
      | true =>
        rw [if_pos (by rfl)]
        rw [ih _ (by rw [keys_dset_of_dhas_true kv.2 hh]; exact hattrs) hcfg.2]
        exact map_applyFormula_dset d.attrs kv rest hattrs hcfg.1 hc hh

/-! ### Claim C9: `DataNode.apply_construct_config` semantics -/

/-- A concrete data node for the C9 counterexample. -/
def c9node : DataNode := mkDataNode "SimpleDefinition" [("descr", .vstr "hello")] "def1" "uuid-1" 7

/-- C9 counterexample: the claim says `apply_construct_config` overwrites
only keys that exist as *public* fields, but the code checks membership in
the whole `__dict__`, so a config entry keyed `"_uuid"` (a private
attribute, present on every node) clobbers the node's persistent identity:
applying `{"_uuid": "clobbered"}` changes `node.uuid`. -/
theorem dac_c9_counterexample :
    (c9node.apply_construct_config [("_uuid", .vstr "clobbered")]).nodeUuid = "clobbered"
    ∧ c9node.nodeUuid = "uuid-1"
    ∧ isPrivateKey "_uuid" = true := by decide

/-- C9 (amended): `DataNode.apply_construct_config` is total (never
raises) and, for a config with distinct keys, rewrites exactly those
`__dict__` entries -- public or private -- whose key occurs in the config
with a value accepted by `ContainsOnlyBasicTypes` (which rejects only
placeholder-shaped strings, possibly nested); every other attribute keeps
its prior value, and no new attribute is created. -/
theorem dac_c9_amended (d : DataNode) (cfg : AList)
    (hattrs : (d.attrs.map Prod.fst).Nodup) (hcfg : (cfg.map Prod.fst).Nodup) :
    (d.apply_construct_config cfg).cls = d.cls
    ∧ (d.apply_construct_config cfg).oid = d.oid
    ∧ (d.apply_construct_config cfg).attrs = d.attrs.map (applyFormula cfg)
    ∧ (d.apply_construct_config cfg).attrs.map Prod.fst = d.attrs.map Prod.fst := by
  refine ⟨apply_construct_config_cls d cfg, apply_construct_config_oid d cfg,
    apply_construct_config_attrs d cfg hattrs hcfg, ?_⟩
  rw [apply_construct_config_attrs d cfg hattrs hcfg, List.map_map]
  exact List.map_congr_left (fun av _ => applyFormula_fst cfg av)

/-- Witness for C9 (amended) at a concrete node and config. -/
theorem dac_c9_amended_witness :
    ((mkDataNode "D" [("x", .vint 1)] "n" "u" 1).apply_construct_config
        [("x", .vint 2), ("y", .vint 3)]).attrs
      = (mkDataNode "D" [("x", .vint 1)] "n" "u" 1).attrs.map
          (applyFormula [("x", .vint 2), ("y", .vint 3)]) :=
  (dac_c9_amended (mkDataNode "D" [("x", .vint 1)] "n" "u" 1)
    [("x", .vint 2), ("y", .vint 3)] (by decide) (by decide)).2.2.1

/-! ### Claim C8: construct-config idempotence -/

/-- The combined config assembled at the end of
`ActionNode.get_construct_config` from the (possibly seeded) node. -/
def comOf (a : ActionNode) : AList :=
  let com1 := dmerge [("name", .vstr a.name)] a.construct_config
  match a.out_name with
  | some o => dset com1 "out_name" (.vstr o)
  | none => com1

/-- The seeding step of `ActionNode.get_construct_config` (first call on
an empty stored config). -/
def seedAct (a : ActionNode) : ActionNode :=
  { a with
    construct_config := seedConfig a.spec.sigParams
    out_name := match a.spec.retAnn with
      | some r => if r ≠ "list" then some ("<" ++ r ++ ">") else a.out_name
      | none => a.out_name }

theorem gcc_spec (a : ActionNode) :
    a.get_construct_config =
      (comOf (if a.construct_config = [] then seedAct a else a),
       if a.construct_config = [] then seedAct a else a) := by
  unfold ActionNode.get_construct_config comOf seedAct
  by_cases h : a.construct_config = [] <;> simp [h]

theorem seedAct_cc (a : ActionNode) :
    (seedAct a).construct_config = seedConfig a.spec.sigParams := rfl

theorem seedAct_idem (a : ActionNode) : seedAct (seedAct a) = seedAct a := by
  unfold seedAct
  cases hr : a.spec.retAnn with
  | none => rfl
  | some r =>
    by_cases hl : r ≠ "list" <;> simp [hl]

theorem gcc_second_call (a : ActionNode) :
    ActionNode.get_construct_config (a.get_construct_config).2 = a.get_construct_config := by
  rw [gcc_spec a]
  by_cases h : a.construct_config = []
  · rw [if_pos h]
    show ActionNode.get_construct_config (seedAct a) = _
    rw [gcc_spec (seedAct a)]
    by_cases h2 : (seedAct a).construct_config = []
    · rw [if_pos h2, seedAct_idem]
    · rw [if_neg h2]
  · rw [if_neg h]
    show ActionNode.get_construct_config a = _
    rw [gcc_spec a, if_neg h]

theorem gcc_filter (d : DataNode) :
    d.get_construct_config = (d.attrs.filter (fun kv => !(isPrivateKey kv.1))).map
      (fun kv => (kv.1, Value2BasicTypes kv.2)) := by
  show d.attrs.filterMap _ = _
  induction d.attrs with
  | nil => rfl
  | cons kv rest ih =>
    by_cases hp : isPrivateKey kv.1 = true
    · simp [List.filterMap_cons, List.filter_cons, hp, ih]
    · simp only [Bool.not_eq_true] at hp
      simp [List.filterMap_cons, List.filter_cons, hp, ih]

theorem gcc_keys_nodup (d : DataNode) (hattrs : (d.attrs.map Prod.fst).Nodup) :
    ((d.get_construct_config).map Prod.fst).Nodup := by
  rw [gcc_filter, List.map_map]
  have : ((d.attrs.filter (fun kv => !(isPrivateKey kv.1))).map
      (Prod.fst ∘ fun kv => (kv.1, Value2BasicTypes kv.2)))
      = (d.attrs.filter (fun kv => !(isPrivateKey kv.1))).map Prod.fst :=
    List.map_congr_left (fun kv _ => rfl)
  rw [this]
  exact ((d.attrs.filter_sublist).map Prod.fst).nodup hattrs

theorem dnode_apply_gcc (d : DataNode)
    (hattrs : (d.attrs.map Prod.fst).Nodup)
    (hstable : ∀ kv ∈ d.attrs, isPrivateKey kv.1 = false →
      ContainsOnlyBasicTypes (Value2BasicTypes kv.2) = true → Value2BasicTypes kv.2 = kv.2) :
    d.apply_construct_config d.get_construct_config = d := by
  have hkeys := gcc_keys_nodup d hattrs
  apply DataNode.ext
  · exact apply_construct_config_cls d _
  · exact apply_construct_config_oid d _
  · rw [apply_construct_config_attrs d _ hattrs hkeys]
    have hpt : ∀ av ∈ d.attrs, applyFormula d.get_construct_config av = av := by
      intro av hav
      by_cases hp : isPrivateKey av.1 = true
      · have hnone : dget d.get_construct_config av.1 = none := by
          apply dget_eq_none_of_forall
          intro kv hkv he
          rw [gcc_filter] at hkv
          obtain ⟨src, hsrc, hkveq⟩ := List.mem_map.mp hkv
          have hpub := List.of_mem_filter hsrc
          rw [show kv.1 = src.1 from by rw [← hkveq]] at he
          rw [he, hp] at hpub
          cases hpub
        unfold applyFormula
        rw [hnone]
      · simp only [Bool.not_eq_true] at hp
        have hmem : (av.1, Value2BasicTypes av.2) ∈ d.get_construct_config := by
          rw [gcc_filter]
          exact List.mem_map.mpr ⟨av, List.mem_filter.mpr ⟨hav, by rw [hp]; rfl⟩, rfl⟩
        have hget := dget_of_mem_nodup hmem hkeys
        unfold applyFormula
        rw [hget]
        show (if ContainsOnlyBasicTypes (Value2BasicTypes av.2) = true
          then (av.1, Value2BasicTypes av.2) else av) = av
        by_cases hc : ContainsOnlyBasicTypes (Value2BasicTypes av.2) = true
        · rw [if_pos hc, hstable av hav hp hc]
        · rw [if_neg hc]
    rw [List.map_congr_left hpt]
    simp

theorem act_apply_gcc (a : ActionNode) (hst : a.status = .CONFIGURED)
    (hcc : (a.get_construct_config).1 = a.construct_config)
    (hname : dget a.construct_config "name" = some (.vstr a.name))
    (hout : dget a.construct_config "out_name" = a.out_name.map (fun o => .vstr o)) :
    (a.get_construct_config).2 = a
    ∧ a.apply_construct_config (a.get_construct_config).1 = a := by
  have hne : a.construct_config ≠ [] := by
    intro h
    rw [h] at hname
    cases hname
  have h2 : (a.get_construct_config).2 = a := by
    rw [gcc_spec a, if_neg hne]
  refine ⟨h2, ?_⟩
  rw [hcc]
  show ActionNode.apply_construct_config a a.construct_config = a
  unfold ActionNode.apply_construct_config
  rw [hname, hout]
  cases ho : a.out_name with
  | none =>
    apply ActionNode.ext <;> simp [hst, ho]
  | some o =>
    apply ActionNode.ext <;> simp [hst, ho]

/-- A demo action class whose `__call__` declares a return annotation. -/
def c8spec : ActionClass :=
  { caption := "Demo action"
    sigParams := [("self", ⟨none, .empty⟩), ("threshold", ⟨none, .basic "float"⟩)]
    retAnn := some "Figure" }

/-- A freshly constructed action of that class. -/
def c8act : ActionNode := mkActionNode "demo.DemoAction" c8spec .gck "uuid-act-1"

/-- C8 counterexample: the claim says `get_construct_config` never mutates
the node, but on an `ActionNode` whose stored config is empty the first
call seeds `_construct_config` from the signature and sets `out_name` from
the return annotation -- an observable mutation. -/
theorem dac_c8_counterexample :
    c8act.out_name = none
    ∧ (c8act.get_construct_config).2.out_name = some "<Figure>"
    ∧ c8act.construct_config = []
    ∧ (c8act.get_construct_config).2.construct_config = [("threshold", .vstr "<float>")]
    ∧ (c8act.get_construct_config).2 ≠ c8act := by decide

/-- C8 (amended): (1) results of repeated `get_construct_config` calls are
equal and the seeding mutation happens at most once (the node returned by
the first call is a fixpoint); (2) `DataNode.get_construct_config` never
mutates, and applying its result back is a no-op provided every public
value that survives the plain-data filter is `Value2BasicTypes`-stable
(tuples are the one exception: they are re-read as lists); (3) for an
`ActionNode`, applying the result back is a no-op exactly on
already-consistent nodes: status `CONFIGURED` and a stored config that
already embeds the `name`/`out_name` fields (as every freshly loaded or
previously applied action has); otherwise it seeds those keys and forces
status to `CONFIGURED`. -/
theorem dac_c8_amended :
    (∀ a : ActionNode,
      ActionNode.get_construct_config (a.get_construct_config).2 = a.get_construct_config)
    ∧ (∀ d : DataNode, (d.attrs.map Prod.fst).Nodup →
        (∀ kv ∈ d.attrs, isPrivateKey kv.1 = false →
          ContainsOnlyBasicTypes (Value2BasicTypes kv.2) = true →
            Value2BasicTypes kv.2 = kv.2) →
        d.apply_construct_config d.get_construct_config = d)
    ∧ (∀ a : ActionNode, a.status = .CONFIGURED →
        (a.get_construct_config).1 = a.construct_config →
        dget a.construct_config "name" = some (.vstr a.name) →
        dget a.construct_config "out_name" = a.out_name.map (fun o => .vstr o) →
        (a.get_construct_config).2 = a
        ∧ a.apply_construct_config (a.get_construct_config).1 = a) :=
  ⟨gcc_second_call, dnode_apply_gcc, act_apply_gcc⟩

/-- An already-consistent (loaded-style) action used by the C8 witness. -/
def c8wact : ActionNode :=
  { cls := "demo.A"
    spec := { caption := "Cap", sigParams := [("self", ⟨none, .empty⟩)], retAnn := none }
    uuid := "uuid-act-2"
    name := "Cap"
    status := .CONFIGURED
    out_name := none
    construct_config := [("name", .vstr "Cap")]
    context_key := .gck }

/-- Witness for C8 (amended), instantiating all three parts at concrete
nodes and discharging the hypotheses by computation. -/
theorem dac_c8_amended_witness :
    (ActionNode.get_construct_config (c8act.get_construct_config).2 = c8act.get_construct_config)
    ∧ ((mkDataNode "D" [("x", .vint 1)] "n" "u" 1).apply_construct_config
        (mkDataNode "D" [("x", .vint 1)] "n" "u" 1).get_construct_config
        = mkDataNode "D" [("x", .vint 1)] "n" "u" 1)
    ∧ (c8wact.apply_construct_config (c8wact.get_construct_config).1 = c8wact) :=
  ⟨dac_c8_amended.1 c8act,
   dac_c8_amended.2.1 (mkDataNode "D" [("x", .vint 1)] "n" "u" 1) (by decide) (by decide),
   (dac_c8_amended.2.2 c8wact rfl (by decide) (by decide) (by decide)).2⟩

/-! ### Claim C2: pre_run / post_run bracketing -/

/-- C2 counterexample: in every invocation site (`run_action` synchronous
branch, the threaded worker closure, `cb_quickaction`) the three calls are
written sequentially with no `try`/`finally`, so when the action body
raises, `post_run` is *not* executed and the exception propagates. -/
theorem dac_c2_counterexample :
    execStmts (fun s => decide (s = RunEv.callBody)) run_action_sync_stmts
      = ([RunEv.preRun, RunEv.callBody], true)
    ∧ RunEv.postRun ∉ (execStmts (fun s => decide (s = RunEv.callBody)) run_action_sync_stmts).1
    ∧ execStmts (fun s => decide (s = RunEv.callBody)) cb_quickaction_stmts
      = ([RunEv.preRun, RunEv.callBody], true)
    ∧ execStmts (fun s => decide (s = RunEv.callBody)) run_action_thread_fn_stmts
      = ([RunEv.preRun, RunEv.callBody], true) := by decide

/-- C2 (amended): `pre_run` is invoked before the action body on every
invocation path; when the body (and the later statements) complete
normally, `post_run` runs right after the body; when the body raises,
`post_run` is not invoked and the exception propagates to the caller. -/
theorem dac_c2_amended (raises : RunEv → Bool) (hpre : raises .preRun = false) :
    (raises .callBody = false → raises .postRun = false → raises .completedCb = false →
        execStmts raises run_action_sync_stmts
          = ([.preRun, .callBody, .postRun, .completedCb], false)
      ∧ execStmts raises run_action_thread_fn_stmts = ([.preRun, .callBody, .postRun], false)
      ∧ execStmts raises cb_quickaction_stmts = ([.preRun, .callBody, .postRun], false))
    ∧ (raises .callBody = true →
        execStmts raises run_action_sync_stmts = ([.preRun, .callBody], true)
      ∧ execStmts raises run_action_thread_fn_stmts = ([.preRun, .callBody], true)
      ∧ execStmts raises cb_quickaction_stmts = ([.preRun, .callBody], true)
      ∧ RunEv.postRun ∉ (execStmts raises run_action_sync_stmts).1) := by
  constructor
  · intro h1 h2 h3
    refine ⟨?_, ?_, ?_⟩ <;>
      simp [execStmts, run_action_sync_stmts, run_action_thread_fn_stmts,
        cb_quickaction_stmts, hpre, h1, h2, h3]
  · intro h1
    refine ⟨?_, ?_, ?_, ?_⟩ <;>
      simp [execStmts, run_action_sync_stmts, run_action_thread_fn_stmts,
        cb_quickaction_stmts, hpre, h1]

/-- Witness for C2 (amended) with a body that completes normally. -/
theorem dac_c2_amended_witness :
    execStmts (fun _ => false) run_action_sync_stmts
      = ([.preRun, .callBody, .postRun, .completedCb], false) :=
  ((dac_c2_amended (fun _ => false) rfl).1 rfl rfl rfl).1

/-! ### Claim C3: missing required parameter -/

/-- C3 counterexample: the claim says a stored value of `None` for a
required parameter raises a missing-parameter error, but
`construct_config.get(key, param.default)` only falls back to the
(absent) default when the key is *absent*; a stored `None` flows into
`_get_value_of_annotation`, which returns it unchanged, so resolution
succeeds with `threshold = None` and no error is raised. -/
theorem dac_c3_counterexample :
    Container.prepare_params_for_action Container.empty
      (.flat [("self", ⟨none, .empty⟩), ("threshold", ⟨none, .basic "float"⟩)])
      [("threshold", .vnone)]
      = .ok (.flatDone [("threshold", .pv .vnone)]) := by
  simp [Container.prepare_params_for_action, prepareFlat, dget, getValueOfAnnotation, Except.map]

/-- C3 (amended): when the stored construct config has no entry at all for
a signature parameter that lacks a default, `prepare_params_for_action`
raises `Exception(f"Parameter '{key}' not provided.")` -- naming the
parameter -- and no parameters are produced; a stored `None`, by contrast,
resolves to `None` without error. -/
theorem dac_c3_amended (c : Container) (key : String) (p : SigParam) (cfg : AList)
    (hself : key ≠ "self") (hdef : p.default = none) (habsent : dget cfg key = none) :
    c.prepare_params_for_action (.flat [(key, p)]) cfg
      = .error (.paramNotProvided ("Parameter '" ++ key ++ "' not provided.")) := by
  simp [Container.prepare_params_for_action, prepareFlat, hself, hdef, habsent, Except.map]

/-- Witness for C3 (amended): required `threshold: float` with stored
config `{}` raises the error naming `"threshold"`. -/
theorem dac_c3_amended_witness :
    Container.prepare_params_for_action Container.empty
      (.flat [("threshold", ⟨none, .basic "float"⟩)]) []
      = .error (.paramNotProvided "Parameter 'threshold' not provided.") :=
  dac_c3_amended Container.empty "threshold" ⟨none, .basic "float"⟩ []
    (by decide) rfl rfl

/-! ### Claim C4: tolerant list resolution -/

/-- The per-element outcome of resolving one stored name against a
`list[T]` parameter: `None` passes through, a name that resolves yields
the live node, a name that does not resolve is dropped. -/
def listElemResolve (c : Container) (cls : String) (v : PValue) : Option RValue :=
  if v = .vnone then some (.pv .vnone)
  else match v with
    | .vstr s => (c.get_node_of_type s cls).map RValue.node
    | _ => none

/-- The elements that survive tolerant list resolution, in original
order. -/
def keptElems (c : Container) (cls : String) : PList → RList
  | .nil => .nil
  | .cons v rest =>
    match listElemResolve c cls v with
    | some r => .cons r (keptElems c cls rest)
    | none => keptElems c cls rest

/-- Whether every stored element is a name string. -/
def PList.allStrNames : PList → Bool
  | .nil => true
  | .cons (.vstr _) rest => PList.allStrNames rest
  | .cons _ _ => false

/-- C4: resolving a `list[T]` parameter (with `T` a `DataNode` subclass)
against a stored list of names yields exactly the successfully resolved
elements in their original order; an element whose lookup raises
`NodeNotFoundError` is silently dropped and no error propagates. -/
theorem dac_c4 (c : Container) (cls : String) (l : PList) (h : l.allStrNames = true) :
    getValueOfAnnotation c (.listOf (.dataNode cls)) (.vlist l)
      = .ok (.rlist (keptElems c cls l)) := by
  have key : ∀ l2 : PList, l2.allStrNames = true →
      resolveListElems c (.dataNode cls) l2 = .ok (keptElems c cls l2) := by
    intro l2
    induction l2 using plist_induction with
    | hnil => intro _; simp [resolveListElems, keptElems]
    | hcons v rest ih =>
      intro h
      cases v with
      | vstr s =>
        have hrest : PList.allStrNames rest = true := by simpa [PList.allStrNames] using h
        rw [show resolveListElems c (.dataNode cls) (.cons (.vstr s) rest)
            = (match getValueOfAnnotation c (.dataNode cls) (.vstr s) with
              | .error (.nodeNotFound _) => resolveListElems c (.dataNode cls) rest
              | .error e => .error e
              | .ok r =>
                match resolveListElems c (.dataNode cls) rest with
                | .error e => .error e
                | .ok rs => .ok (.cons r rs)) from by rw [resolveListElems]]
        cases hn : c.get_node_of_type s cls with
        | some n =>
          rw [show getValueOfAnnotation c (.dataNode cls) (.vstr s) = .ok (.node n) from by
            rw [ getValueOfAnnotation]
            simp [hn]]
          rw [ih hrest]
          simp [keptElems, listElemResolve, hn]
        | none =>
          rw [show getValueOfAnnotation c (.dataNode cls) (.vstr s)
              = .error (.nodeNotFound ("Node '" ++ s ++ "' of '" ++ cls ++ "' not found.")) from by
            rw [ getValueOfAnnotation]
            simp [hn]]
          rw [ih hrest]
          simp [keptElems, listElemResolve, hn]
      | vint n => simp [PList.allStrNames] at h
      | vbool b => simp [PList.allStrNames] at h
      | vnone => simp [PList.allStrNames] at h
      | vobj t => simp [PList.allStrNames] at h
      | vlist l2 => simp [PList.allStrNames] at h
      | vtuple l2 => simp [PList.allStrNames] at h
      | vdict d2 => simp [PList.allStrNames] at h
  rw [ getValueOfAnnotation]
  simp [key l h, Except.map]

/-- Nodes and container for the C4 witness scenario. -/
def c4nodeA : DataNode := mkDataNode "DataNode" [] "A" "uuid-A" 11

def c4nodeC : DataNode := mkDataNode "DataNode" [] "C" "uuid-C" 12

def c4cont : Container :=
  { actions := []
    contexts := [(.gck, [("DataNode", [("A", c4nodeA), ("C", c4nodeC)])])]
    current_key := .gck }

/-- Witness for C4: stored `["A","B","C"]` with only `"A"` and `"C"` in
scope resolves to the two live nodes, in order, with no error. -/
theorem dac_c4_witness :
    getValueOfAnnotation c4cont (.listOf (.dataNode "DataNode"))
      (.vlist (.cons (.vstr "A") (.cons (.vstr "B") (.cons (.vstr "C") .nil))))
      = .ok (.rlist (.cons (.node c4nodeA) (.cons (.node c4nodeC) .nil))) := by
  rw [dac_c4 c4cont "DataNode" _ (by decide)]
  rfl

/-! ### Claim C5: two-tier lookup and scalar resolution failure -/

/-- C5: `Container.get_node_of_type` consults the current context first; a
hit there wins; on a miss it falls back to the Global context exactly when
the current context is not the Global one; and a scalar DataNode parameter
whose name resolves nowhere fails with `NodeNotFoundError` naming the node
and the type. -/
theorem dac_c5 (c : Container) (cls X : String) :
    (∀ g : DataNode, c.current_key.sameObj .gck = false →
        c.CurrentContext.get_node_of_type X cls = none →
        c.GlobalContext.get_node_of_type X cls = some g →
        c.get_node_of_type X cls = some g)
    ∧ (∀ n : DataNode, c.CurrentContext.get_node_of_type X cls = some n →
        c.get_node_of_type X cls = some n)
    ∧ (c.current_key.sameObj .gck = true →
        c.CurrentContext.get_node_of_type X cls = none →
        c.get_node_of_type X cls = none)
    ∧ (c.get_node_of_type X cls = none →
        getValueOfAnnotation c (.dataNode cls) (.vstr X)
          = .error (.nodeNotFound ("Node '" ++ X ++ "' of '" ++ cls ++ "' not found."))) := by
  refine ⟨?_, ?_, ?_, ?_⟩
  · intro g hng hcur hglob
    unfold Container.get_node_of_type
    rw [hcur, hng, hglob]
    simp
  · intro n hcur
    unfold Container.get_node_of_type
    rw [hcur]
  · intro hg hcur
    unfold Container.get_node_of_type
    rw [hcur, hg]
    simp
  · intro hnone
    rw [ getValueOfAnnotation]
    simp [hnone]

/-! ### Claim C6: cascade delete -/

theorem CtxKey.sameObj_refl (k : CtxKey) : k.sameObj k = true := by
  cases k <;> simp [CtxKey.sameObj]

theorem CtxKey.sameObj_symm (a b : CtxKey) : a.sameObj b = b.sameObj a := by
  cases a <;> cases b <;> simp [CtxKey.sameObj] <;> exact eq_comm

theorem CtxKey.sameObj_oidOf {a b : CtxKey} (h : a.sameObj b = true) :
    a.oidOf = b.oidOf := by
  cases a <;> cases b <;> simp_all [CtxKey.sameObj, CtxKey.oidOf]

theorem setContext_actions (c : Container) (k : CtxKey) (ctx : DataContext) :
    (c.setContext k ctx).actions = c.actions := by
  unfold Container.setContext
  by_cases h : c.contexts.any (fun kv => kv.1.sameObj k) <;> simp [h]

theorem setContext_current_key (c : Container) (k : CtxKey) (ctx : DataContext) :
    (c.setContext k ctx).current_key = c.current_key := by
  unfold Container.setContext
  by_cases h : c.contexts.any (fun kv => kv.1.sameObj k) <;> simp [h]

theorem CtxKey.sameObj_trans {a b c : CtxKey} (h1 : a.sameObj b = true)
    (h2 : b.sameObj c = true) : a.sameObj c = true := by
  cases a <;> cases b <;> cases c <;> simp_all [CtxKey.sameObj]

theorem find?_map_set_self (l : List (CtxKey × DataContext)) (k : CtxKey)
    (ctx : DataContext) (h : l.any (fun kv => kv.1.sameObj k) = true) :
    ∃ k1, (l.map (fun kv => if kv.1.sameObj k then (kv.1, ctx) else kv)).find?
        (fun kv => kv.1.sameObj k) = some (k1, ctx) := by
  induction l with
  | nil => simp at h
  | cons kv rest ih =>
    cases hm : kv.1.sameObj k with
    | true =>
      refine ⟨kv.1, ?_⟩
      simp [List.find?_cons, hm]
    | false =>
      simp only [List.any_cons, hm, Bool.false_or] at h
      obtain ⟨k1, hk1⟩ := ih h
      refine ⟨k1, ?_⟩
      simpa [List.find?_cons, hm] using hk1

theorem find?_map_set_ne (l : List (CtxKey × DataContext)) (k1 k2 : CtxKey)
    (ctx : DataContext) (h : k2.sameObj k1 = false) :
    (l.map (fun kv => if kv.1.sameObj k1 then (kv.1, ctx) else kv)).find?
        (fun kv => kv.1.sameObj k2)
      = (l.find? (fun kv => kv.1.sameObj k2)).map (fun kv =>
          if kv.1.sameObj k1 then (kv.1, ctx) else kv) := by
  induction l with
  | nil => rfl
  | cons kv rest ih =>
    cases hm2 : kv.1.sameObj k2 with
    | true =>
      have hm1 : kv.1.sameObj k1 = false := by
        cases hx : kv.1.sameObj k1
        · rfl
        · exfalso
          have : k2.sameObj k1 = true :=
            CtxKey.sameObj_trans (by rw [CtxKey.sameObj_symm]; exact hm2) hx
          rw [this] at h
          cases h
      simp [List.find?_cons, hm1, hm2]
    | false =>
      cases hm1 : kv.1.sameObj k1 with
      | true => simpa [List.find?_cons, hm1, hm2] using ih
      | false => simpa [List.find?_cons, hm1, hm2] using ih

theorem find?_append_single_ne (l : List (CtxKey × DataContext)) (k1 k2 : CtxKey)
    (ctx : DataContext) (h : k1.sameObj k2 = false) :
    (l ++ [(k1, ctx)]).find? (fun kv => kv.1.sameObj k2)
      = l.find? (fun kv => kv.1.sameObj k2) := by
  induction l with
  | nil => simp [List.find?_cons, h, List.find?]
  | cons kv rest ih =>
    cases hm : kv.1.sameObj k2 with
    | true => simp [List.find?_cons, hm]
    | false => simpa [List.find?_cons, hm] using ih

theorem find?_append_single_self (l : List (CtxKey × DataContext)) (k : CtxKey)
    (ctx : DataContext) (h : ∀ kv ∈ l, kv.1.sameObj k = false) :
    (l ++ [(k, ctx)]).find? (fun kv => kv.1.sameObj k) = some (k, ctx) := by
  induction l with
  | nil => simp [List.find?_cons, CtxKey.sameObj_refl]
  | cons kv rest ih =>
    rw [List.cons_append, List.find?_cons, h kv (by simp)]
    exact ih (fun kv2 h2 => h kv2 (by simp [h2]))

theorem getContext_setContext_self (c : Container) (k : CtxKey) (ctx : DataContext) :
    (c.setContext k ctx).getContext k = ctx := by
  unfold Container.setContext Container.getContext
  by_cases h : c.contexts.any (fun kv => kv.1.sameObj k) = true
  · rw [if_pos h]
    obtain ⟨k1, hk1⟩ := find?_map_set_self c.contexts k ctx h
    simp only []
    rw [hk1]
  · rw [if_neg h]
    simp only []
    rw [find?_append_single_self c.contexts k ctx (fun kv hkv => by
      cases hx : kv.1.sameObj k
      · rfl
      · exact absurd (List.any_eq_true.mpr ⟨kv, hkv, by simpa using hx⟩) h)]

theorem getContext_setContext_ne (c : Container) (k1 k2 : CtxKey) (ctx : DataContext)
    (h : k2.sameObj k1 = false) :
    (c.setContext k1 ctx).getContext k2 = c.getContext k2 := by
  unfold Container.setContext Container.getContext
  by_cases hany : c.contexts.any (fun kv => kv.1.sameObj k1) = true
  · rw [if_pos hany]
    simp only []
    rw [find?_map_set_ne c.contexts k1 k2 ctx h]
    cases hf : c.contexts.find? (fun kv => kv.1.sameObj k2) with
    | none => rfl
    | some kv =>
      have hm2 : kv.1.sameObj k2 = true := by
        have := List.find?_some hf
        simpa using this
      have hm1 : kv.1.sameObj k1 = false := by
        cases hx : kv.1.sameObj k1
        · rfl
        · exfalso
          have : k2.sameObj k1 = true :=
            CtxKey.sameObj_trans (by rw [CtxKey.sameObj_symm]; exact hm2) hx
          rw [this] at h
          cases h
      simp [hm1]
  · rw [if_neg hany]
    simp only []
    rw [find?_append_single_ne c.contexts k1 k2 ctx (by rw [CtxKey.sameObj_symm]; exact h)]

theorem find?_filter_of_imp (l : List (CtxKey × DataContext))
    (p : CtxKey × DataContext → Bool) (k : CtxKey)
    (h : ∀ kv, kv.1.sameObj k = true → p kv = true) :
    (l.filter p).find? (fun kv => kv.1.sameObj k) = l.find? (fun kv => kv.1.sameObj k) := by
  induction l with
  | nil => rfl
  | cons kv rest ih =>
    cases hp : p kv with
    | true =>
      rw [List.filter_cons_of_pos hp, List.find?_cons, List.find?_cons]
      cases hm : kv.1.sameObj k with
      | true => rfl
      | false => exact ih
    | false =>
      rw [List.filter_cons_of_neg (by simp [hp]), List.find?_cons]
      have hm : kv.1.sameObj k = false := by
        cases hx : kv.1.sameObj k
        · rfl
        · exact absurd (h kv hx) (by simp [hp])
      rw [hm]
      exact ih

theorem getContext_eq_of_contexts {c1 c2 : Container} (h : c1.contexts = c2.contexts)
    (k : CtxKey) : c1.getContext k = c2.getContext k := by
  unfold Container.getContext
  rw [h]

theorem getContext_of_filter {c1 c2 : Container} {p : CtxKey × DataContext → Bool}
    (h : c1.contexts = c2.contexts.filter p) (k : CtxKey)
    (himp : ∀ kv, kv.1.sameObj k = true → p kv = true) :
    c1.getContext k = c2.getContext k := by
  unfold Container.getContext
  rw [h, find?_filter_of_imp c2.contexts p k himp]

/-- C6: for a DataNode `M` present in the Global context,
`remove_global_node M` (i) removes the `(type(M), M.name)` entry from the
Global bucket, (ii) leaves every other `(type, name)` entry of the Global
context unchanged, (iii) leaves no context keyed by `M`, (iv) drops
exactly the actions whose `context_key` is `M`, (v) leaves every other
context unchanged, and (vi) leaves the current-context cursor unchanged. -/
theorem dac_c6 (c : Container) (M : DataNode) (bucket : List (String × DataNode))
    (hb : dget c.GlobalContext M.cls = some bucket)
    (hm : dget bucket M.nodeName = some M) :
    ((c.remove_global_node M).GlobalContext.get_node_of_type M.nodeName M.cls = none)
    ∧ (∀ cls2 nm2, ¬(cls2 = M.cls ∧ nm2 = M.nodeName) →
        (c.remove_global_node M).GlobalContext.get_node_of_type nm2 cls2
          = c.GlobalContext.get_node_of_type nm2 cls2)
    ∧ (∀ kv ∈ (c.remove_global_node M).contexts, kv.1.oidOf ≠ some M.oid)
    ∧ ((c.remove_global_node M).actions
        = c.actions.filter (fun a => a.context_key.oidOf ≠ some M.oid))
    ∧ (∀ k : CtxKey, k.oidOf ≠ some M.oid → k.sameObj .gck = false →
        (c.remove_global_node M).getContext k = c.getContext k)
    ∧ ((c.remove_global_node M).current_key = c.current_key) := by
  have hp_gck : ∀ kv : CtxKey × DataContext, kv.1.sameObj .gck = true →
      (decide (kv.1.oidOf ≠ some M.oid)) = true := by
    intro kv hkv
    cases hk : kv.1 with
    | gck => simp [CtxKey.oidOf]
    | node o u => rw [hk] at hkv; simp [CtxKey.sameObj] at hkv
  have hR : c.remove_global_node M =
      { actions := ((c.setContext .gck (dset c.GlobalContext M.cls
          (ddel bucket M.nodeName)))).actions.filter
            (fun a => a.context_key.oidOf ≠ some M.oid)
        contexts := ((c.setContext .gck (dset c.GlobalContext M.cls
          (ddel bucket M.nodeName)))).contexts.filter
            (fun kv => kv.1.oidOf ≠ some M.oid)
        current_key := ((c.setContext .gck (dset c.GlobalContext M.cls
          (ddel bucket M.nodeName)))).current_key } := by
    simp only [Container.remove_global_node]
    rw [hb]
  have hRglob : (c.remove_global_node M).GlobalContext
      = dset c.GlobalContext M.cls (ddel bucket M.nodeName) := by
    show (c.remove_global_node M).getContext .gck = _
    rw [getContext_of_filter (by rw [hR]) .gck hp_gck]
    exact getContext_setContext_self c .gck _
  refine ⟨?_, ?_, ?_, ?_, ?_, ?_⟩
  · rw [hRglob]
    unfold DataContext.get_node_of_type
    rw [dget_dset_self]
    exact dget_ddel_self bucket M.nodeName
  · intro cls2 nm2 hne
    rw [hRglob]
    unfold DataContext.get_node_of_type
    by_cases hcls : cls2 = M.cls
    · have hnm : nm2 ≠ M.nodeName := fun he => hne ⟨hcls, he⟩
      rw [hcls, dget_dset_self, hb]
      exact dget_ddel_ne bucket M.nodeName nm2 hnm
    · rw [dget_dset_ne _ _ _ _ hcls]
  · intro kv hkv
    rw [hR] at hkv
    have := List.of_mem_filter hkv
    simpa using this
  · rw [hR]
    show (Container.setContext _ _ _).actions.filter _ = _
    rw [setContext_actions]
  · intro k hoid hgck
    rw [getContext_of_filter (by rw [hR]) k (fun kv hkv => by
      rw [CtxKey.sameObj_oidOf hkv]
      exact decide_eq_true hoid)]
    exact getContext_setContext_ne c .gck k _ hgck
  · rw [hR]
    show (Container.setContext _ _ _).current_key = _
    rw [setContext_current_key]

/-- Concrete state for the C6 witness. -/
def c6M : DataNode := mkDataNode "T" [] "M" "uuid-M" 31

def c6actM : ActionNode :=
  mkActionNode "A" { caption := "Cap", sigParams := [], retAnn := none }
    (.node 31 "uuid-M") "uuid-a1"

def c6actG : ActionNode :=
  mkActionNode "A" { caption := "Cap", sigParams := [], retAnn := none } .gck "uuid-a2"

def c6cont : Container :=
  { actions := [c6actM, c6actG]
    contexts := [(.gck, [("T", [("M", c6M)])]), (.node 31 "uuid-M", [])]
    current_key := .gck }

/-- Witness for C6: after removing `M`, the action bound to `M` is gone
(only the Global-context action remains) and `M` is no longer in the
Global bucket. -/
theorem dac_c6_witness :
    (c6cont.remove_global_node c6M).GlobalContext.get_node_of_type "M" "T" = none
    ∧ (c6cont.remove_global_node c6M).actions = [c6actG] :=
  ⟨(dac_c6 c6cont c6M [("M", c6M)] (by decide) (by decide)).1,
   ((dac_c6 c6cont c6M [("M", c6M)] (by decide) (by decide)).2.2.2.1).trans (by decide)⟩

/-! ### Claim C7: dangling context reference on load -/

/-- A demo action class for the C7 witness. -/
def c7spec : ActionClass := { caption := "Cap7", sigParams := [], retAnn := none }

/-- Class table for the C7 witness. -/
def c7tbl : ActClassTbl := fun s => if s = "A" then some c7spec else none

/-- C7: one step of the action-loading loop.  A record whose `_context_`
uuid is absent from the loaded-node map is silently skipped: no error, no
action appended, and the loop continues (the mutated record keeps its
`_context_` key).  A record without `_context_` is loaded bound to the
Global context key. -/
theorem dac_c7 (tbl : ActClassTbl) (nodes : List (String × DataNode))
    (c : Container) (recs : List AList) (r : AList) (rest : List AList)
    (cp : String) (spec : ActionClass) (uuid : String)
    (hcp : dget r "_class_" = some (.vstr cp))
    (huuid : dget (ddel r "_class_") "_uuid_" = some (.vstr uuid))
    (hspec : tbl cp = some spec) :
    (∀ cu : String,
      dget (ddel (ddel r "_class_") "_uuid_") "_context_" = some (.vstr cu) →
      dget nodes cu = none →
      parseActions tbl nodes c recs (r :: rest)
        = parseActions tbl nodes c (recs ++ [ddel (ddel r "_class_") "_uuid_"]) rest)
    ∧ (dget (ddel (ddel r "_class_") "_uuid_") "_context_" = none →
      parseActions tbl nodes c recs (r :: rest)
        = parseActions tbl nodes
            { c with actions := c.actions
              ++ [(mkActionNode cp spec .gck uuid).apply_construct_config
                    (ddel (ddel r "_class_") "_uuid_")] }
            (recs ++ [ddel (ddel r "_class_") "_uuid_"]) rest) := by
  constructor
  · intro cu hcu hmiss
    rw [show parseActions tbl nodes c recs (r :: rest)
        = parseActions tbl nodes c (recs ++ [ddel (ddel r "_class_") "_uuid_"]) rest from by
      rw [parseActions, hcp]
      simp only [hcp, huuid, hspec, hcu, hmiss]]
  · intro hnoctx
    rw [show parseActions tbl nodes c recs (r :: rest)
        = parseActions tbl nodes
            { c with actions := c.actions
              ++ [(mkActionNode cp spec .gck uuid).apply_construct_config
                    (ddel (ddel r "_class_") "_uuid_")] }
            (recs ++ [ddel (ddel r "_class_") "_uuid_"]) rest from by
      rw [parseActions, hcp]
      simp only [hcp, huuid, hspec, hnoctx]]

/-- Witness for C7: a dangling record is skipped (keeping `_context_` in
the mutated record), a context-free record loads bound to `GCK`; no error
is raised. -/
theorem dac_c7_witness :
    parseActions c7tbl [] Container.empty []
      [[("_class_", .vstr "A"), ("_uuid_", .vstr "u1"), ("_context_", .vstr "missing")],
       [("_class_", .vstr "A"), ("_uuid_", .vstr "u2"), ("name", .vstr "Cap7")]]
      = .ok ({ actions := [(mkActionNode "A" c7spec .gck "u2").apply_construct_config
                  [("name", .vstr "Cap7")]]
               contexts := []
               current_key := .gck },
             [[("_context_", .vstr "missing")], [("name", .vstr "Cap7")]]) := by
  rw [(dac_c7 c7tbl [] Container.empty []
      [("_class_", .vstr "A"), ("_uuid_", .vstr "u1"), ("_context_", .vstr "missing")]
      [[("_class_", .vstr "A"), ("_uuid_", .vstr "u2"), ("name", .vstr "Cap7")]]
      "A" c7spec "u1" (by decide) (by decide) rfl).1 "missing" (by decide) rfl]
  show parseActions c7tbl [] Container.empty [[("_context_", .vstr "missing")]]
    [[("_class_", .vstr "A"), ("_uuid_", .vstr "u2"), ("name", .vstr "Cap7")]] = _
  rw [(dac_c7 c7tbl [] Container.empty
      [[("_context_", .vstr "missing")]]
      [("_class_", .vstr "A"), ("_uuid_", .vstr "u2"), ("name", .vstr "Cap7")]
      [] "A" c7spec "u2" (by decide) (by decide) rfl).2 (by decide)]
  rfl

/-! ### Claim C10: destructive mutation of the save config during load -/

theorem dhas_dset {α : Type} (d : List (String × α)) (k k2 : String) (v : α) :
    dhas (dset d k v) k2 = (dhas d k2 || k2 = k) := by
  induction d with
  | nil => simp [dset, dhas, eq_comm]
  | cons kv rest ih =>
    by_cases hk : kv.1 = k
    · rw [show dset (kv :: rest) k v = (k, v) :: rest by simp [dset, hk]]
      by_cases hk2 : k = k2
      · simp [dhas, hk, hk2, eq_comm]
      · simp [dhas, hk, hk2, (fun h : k2 = k => hk2 h.symm), eq_comm]
    · rw [show dset (kv :: rest) k v = kv :: dset rest k v by simp [dset, hk]]
      simp [dhas, ih, Bool.or_assoc]

/-- The mutation `parse_save_config` performs on a global-node record: the
`_class_` and `_uuid_` keys are popped. -/
def gMutated (r : AList) : AList := ddel (ddel r "_class_") "_uuid_"

/-- The uuid a global-node record carries. -/
def recUuid (r : AList) : Option String :=
  match dget (ddel r "_class_") "_uuid_" with
  | some (.vstr u) => some u
  | _ => none

/-- The mutation `parse_save_config` performs on an action record:
`_class_` and `_uuid_` are popped, and `_context_` is popped as well
exactly when it is present and resolvable. -/
def aMutated (resolvable : String → Bool) (r : AList) : AList :=
  let r2 := gMutated r
  match dget r2 "_context_" with
  | some (.vstr cu) => if resolvable cu then ddel r2 "_context_" else r2
  | _ => r2

theorem parseGlobals_records (tbl : DataClassTbl) :
    ∀ (rs : List AList) (st st2 : GLoad), parseGlobals tbl st rs = .ok st2 →
      st2.recordsOut = st.recordsOut ++ rs.map gMutated
      ∧ (∀ u : String, dhas st2.nodes u
          = (dhas st.nodes u || rs.any (fun r => recUuid r = some u))) := by
  intro rs
  induction rs with
  | nil =>
    intro st st2 h
    rw [parseGlobals] at h
    cases h
    simp
  | cons r rest ih =>
    intro st st2 h
    rw [parseGlobals] at h
    cases hcp : dget r "_class_" with
    | none => rw [hcp] at h; cases h
    | some v =>
      rw [hcp] at h
      cases v with
      | vstr cp =>
        dsimp only [] at h
        cases huuid : dget (ddel r "_class_") "_uuid_" with
        | none => rw [huuid] at h; cases h
        | some v2 =>
          rw [huuid] at h
          cases v2 with
          | vstr uuid =>
            cases htbl : tbl cp with
            | none => rw [htbl] at h; cases h
            | some defaults =>
              rw [htbl] at h
              obtain ⟨hrec, hkeys⟩ := ih _ _ h
              constructor
              · rw [hrec]
                simp [gMutated]
              · intro u
                rw [hkeys u]
                simp only [List.any_cons]
                rw [dhas_dset]
                have hru : recUuid r = some uuid := by
                  unfold recUuid
                  rw [huuid]
                by_cases he : u = uuid
                · simp [hru, he]
                · have hne2 : uuid ≠ u := fun h2 => he h2.symm
                  simp [hru, he, hne2, Bool.or_assoc]
          | vint n => cases h
          | vbool b => cases h
          | vnone => cases h
          | vobj t => cases h
          | vlist l2 => cases h
          | vtuple l2 => cases h
          | vdict d2 => cases h
      | vint n => cases h
      | vbool b => cases h
      | vnone => cases h
      | vobj t => cases h
      | vlist l2 => cases h
      | vtuple l2 => cases h
      | vdict d2 => cases h

theorem dhas_of_dget_some {α : Type} {d : List (String × α)} {k : String} {v : α}
    (h : dget d k = some v) : dhas d k = true := by
  cases hx : dhas d k with
  | true => rfl
  | false => rw [dget_eq_none_of_dhas_false hx] at h; cases h

theorem parseActions_records (tbl : ActClassTbl) (nodes : List (String × DataNode)) :
    ∀ (rs : List AList) (c : Container) (recs : List AList) (c2 : Container)
      (recs2 : List AList), parseActions tbl nodes c recs rs = .ok (c2, recs2) →
      recs2 = recs ++ rs.map (aMutated (fun u => dhas nodes u)) := by
  intro rs
  induction rs with
  | nil =>
    intro c recs c2 recs2 h
    rw [parseActions] at h
    cases h
    simp
  | cons r rest ih =>
    intro c recs c2 recs2 h
    rw [parseActions] at h
    cases hcp : dget r "_class_" with
    | none => rw [hcp] at h; cases h
    | some v =>
      rw [hcp] at h
      cases v with
      | vstr cp =>
        dsimp only [] at h
        cases huuid : dget (ddel r "_class_") "_uuid_" with
        | none => rw [huuid] at h; cases h
        | some v2 =>
          rw [huuid] at h
          cases v2 with
          | vstr uuid =>
            cases htbl : tbl cp with
            | none => rw [htbl] at h; cases h
            | some spec =>
              rw [htbl] at h
              dsimp only [] at h
              cases hctx : dget (ddel (ddel r "_class_") "_uuid_") "_context_" with
              | none =>
                rw [hctx] at h
                rw [ih _ _ _ _ h]
                simp [aMutated, gMutated, hctx]
              | some v3 =>
                rw [hctx] at h
                cases v3 with
                | vstr cu =>
                  dsimp only [] at h
                  cases hn : dget nodes cu with
                  | some n =>
                    rw [hn] at h
                    rw [ih _ _ _ _ h]
                    simp [aMutated, gMutated, hctx, dhas_of_dget_some hn]
                  | none =>
                    rw [hn] at h
                    rw [ih _ _ _ _ h]
                    simp [aMutated, gMutated, hctx, dget_eq_none_of_dhas_false,
                      dhas_eq_false_of_dget_none hn]
                | vint n =>
                  rw [ih _ _ _ _ h]
                  simp [aMutated, gMutated, hctx]
                | vbool b =>
                  rw [ih _ _ _ _ h]
                  simp [aMutated, gMutated, hctx]
                | vnone =>
                  rw [ih _ _ _ _ h]
                  simp [aMutated, gMutated, hctx]
                | vobj t =>
                  rw [ih _ _ _ _ h]
                  simp [aMutated, gMutated, hctx]
                | vlist l2 =>
                  rw [ih _ _ _ _ h]
                  simp [aMutated, gMutated, hctx]
                | vtuple l2 =>
                  rw [ih _ _ _ _ h]
                  simp [aMutated, gMutated, hctx]
                | vdict d2 =>
                  rw [ih _ _ _ _ h]
                  simp [aMutated, gMutated, hctx]
          | vint n => cases h
          | vbool b => cases h
          | vnone => cases h
          | vobj t => cases h
          | vlist l2 => cases h
          | vtuple l2 => cases h
          | vdict d2 => cases h
      | vint n => cases h
      | vbool b => cases h
      | vnone => cases h
      | vobj t => cases h
      | vlist l2 => cases h
      | vtuple l2 => cases h
      | vdict d2 => cases h

theorem gMutated_no_idkeys (r : AList) :
    dget (gMutated r) "_class_" = none ∧ dget (gMutated r) "_uuid_" = none := by
  constructor
  · unfold gMutated
    rw [dget_ddel_ne _ _ _ (by decide)]
    exact dget_ddel_self _ _
  · exact dget_ddel_self _ _

theorem aMutated_no_idkeys (f : String → Bool) (r : AList) :
    dget (aMutated f r) "_class_" = none ∧ dget (aMutated f r) "_uuid_" = none := by
  obtain ⟨h1, h2⟩ := gMutated_no_idkeys r
  unfold aMutated
  dsimp only []
  cases hctx : dget (gMutated r) "_context_" with
  | none => exact ⟨h1, h2⟩
  | some v =>
    cases v with
    | vstr cu =>
      show dget (if f cu = true then ddel (gMutated r) "_context_" else gMutated r) "_class_" = none
        ∧ dget (if f cu = true then ddel (gMutated r) "_context_" else gMutated r) "_uuid_" = none
      by_cases hf : f cu = true
      · simp only [if_pos hf]
        constructor
        · rw [dget_ddel_ne _ _ _ (by decide)]
          exact h1
        · rw [dget_ddel_ne _ _ _ (by decide)]
          exact h2
      · simp only [if_neg hf]
        exact ⟨h1, h2⟩
    | vint n => exact ⟨h1, h2⟩
    | vbool b => exact ⟨h1, h2⟩
    | vnone => exact ⟨h1, h2⟩
    | vobj t => exact ⟨h1, h2⟩
    | vlist l2 => exact ⟨h1, h2⟩
    | vtuple l2 => exact ⟨h1, h2⟩
    | vdict d2 => exact ⟨h1, h2⟩

/-- C10: a successful `parse_save_config` destructively mutates the
caller's config: every global-node record loses its `_class_` and
`_uuid_` entries; every action record loses `_class_` and `_uuid_`, and
additionally loses `_context_` exactly when that reference was present and
resolvable against the loaded global nodes; consequently no identity key
remains in any returned record. -/
theorem dac_c10 (tblD : DataClassTbl) (tblA : ActClassTbl) (cfg : SaveConfig) (oid0 : Nat)
    (c : Container) (out : SaveConfig) (n1 : Nat)
    (h : Container.parse_save_config tblD tblA cfg oid0 = .ok (c, out, n1)) :
    out.global_nodes = cfg.global_nodes.map gMutated
    ∧ out.actions = cfg.actions.map
        (aMutated (fun u => cfg.global_nodes.any (fun r => recUuid r = some u)))
    ∧ (∀ r ∈ out.global_nodes, dget r "_class_" = none ∧ dget r "_uuid_" = none)
    ∧ (∀ r ∈ out.actions, dget r "_class_" = none ∧ dget r "_uuid_" = none) := by
  unfold Container.parse_save_config at h
  cases hg : parseGlobals tblD
      { nodes := [], container := Container.empty, recordsOut := [], nextOid := oid0 }
      cfg.global_nodes with
  | error e => rw [hg] at h; cases h
  | ok st =>
    rw [hg] at h
    dsimp only [] at h
    cases ha : parseActions tblA st.nodes st.container [] cfg.actions with
    | error e => rw [ha] at h; cases h
    | ok p =>
      rw [ha] at h
      obtain ⟨c2, arecs⟩ := p
      cases h
      obtain ⟨hrec, hkeys⟩ := parseGlobals_records tblD cfg.global_nodes _ _ hg
      have harec := parseActions_records tblA st.nodes cfg.actions _ _ _ _ ha
      have hfun : (fun u => dhas st.nodes u)
          = (fun u => cfg.global_nodes.any (fun r => recUuid r = some u)) := by
        funext u
        rw [hkeys u]
        simp [dhas]
      have hg_eq : st.recordsOut = cfg.global_nodes.map gMutated := by
        rw [hrec]
        simp
      have ha_eq : arecs = cfg.actions.map
          (aMutated (fun u => cfg.global_nodes.any (fun r => recUuid r = some u))) := by
        rw [harec, ← hfun]
        simp
      refine ⟨hg_eq, ha_eq, ?_, ?_⟩
      · intro r hr
        rw [hg_eq] at hr
        obtain ⟨r0, _, hre⟩ := List.mem_map.mp hr
        rw [← hre]
        exact gMutated_no_idkeys r0
      · intro r hr
        rw [ha_eq] at hr
        obtain ⟨r0, _, hre⟩ := List.mem_map.mp hr
        rw [← hre]
        exact aMutated_no_idkeys _ r0

/-- Class tables and config for the C10 witness. -/
def c10tblD : DataClassTbl := fun s => if s = "D" then some [("x", .vint 0)] else none

def c10tblA : ActClassTbl :=
  fun s => if s = "A" then some { caption := "Cap10", sigParams := [], retAnn := none } else none

def c10cfg : SaveConfig :=
  { global_nodes := [[("_class_", .vstr "D"), ("_uuid_", .vstr "gu"),
      ("name", .vstr "n1"), ("x", .vint 5)]]
    actions := [[("_class_", .vstr "A"), ("_uuid_", .vstr "au1"),
        ("_context_", .vstr "gu"), ("name", .vstr "Cap10")],
      [("_class_", .vstr "A"), ("_uuid_", .vstr "au2"),
        ("_context_", .vstr "nope"), ("name", .vstr "Cap10")]] }

/-- The result of loading the C10 witness config. -/
def c10parsed : Container × SaveConfig × Nat :=
  match Container.parse_save_config c10tblD c10tblA c10cfg 50 with
  | .ok res => res
  | .error _ => (Container.empty, { actions := [], global_nodes := [] }, 0)

/-- Witness for C10 at a concrete save config (one global node, one
resolvable action record, one dangling one). -/
theorem dac_c10_witness :
    c10parsed.2.1.global_nodes = c10cfg.global_nodes.map gMutated
    ∧ c10parsed.2.1.actions = c10cfg.actions.map
        (aMutated (fun u => c10cfg.global_nodes.any (fun r => recUuid r = some u))) :=
  ⟨(dac_c10 c10tblD c10tblA c10cfg 50 c10parsed.1 c10parsed.2.1 c10parsed.2.2 rfl).1,
   (dac_c10 c10tblD c10tblA c10cfg 50 c10parsed.1 c10parsed.2.1 c10parsed.2.2 rfl).2.1⟩

/-! ### Claim C1: save/load round-trip -/

/-- Constructor-default fields of the data class used in the C1
counterexample. -/
def c1defaults : AList := [("descr", .vstr "")]

/-- Data-class table for the C1 counterexample. -/
def c1tblD : DataClassTbl :=
  fun s => if s = "SimpleDefinition" then some c1defaults else none

/-- Action-class table for the C1 counterexample (no actions needed). -/
def c1tblA : ActClassTbl := fun _ => none

/-- A user-named node whose display name happens to look like a
placeholder. -/
def c1node : DataNode := mkDataNode "SimpleDefinition" c1defaults "<X>" "uuid-x" 1

/-- The reachable container of the C1 counterexample. -/
def c1cont : Container := Container.empty.addGlobalNode c1node

/-- C1 counterexample: the round-trip is not assured for every reachable
state.  A global node named `"<X>"` (any user-chosen name of the shape
`"<...>"`, via the create or rename commands) is reachable; its name
survives into the save config, but on load `apply_construct_config`
rejects the value (placeholder-shaped strings fail
`ContainsOnlyBasicTypes`), so the loaded node keeps the `"[Default]"`
placeholder name: the loaded global-node set differs in its names from the
saved one. -/
theorem dac_c1_counterexample :
    Reach c1tblD c1cont
    ∧ (c1cont.get_save_config).2.GlobalContext.nodeIter.map DataNode.nodeName = ["<X>"]
    ∧ (match Container.parse_save_config c1tblD c1tblA (c1cont.get_save_config).1 100 with
       | .ok res => res.1.GlobalContext.nodeIter.map DataNode.nodeName
       | .error _ => []) = ["[Default]"] :=
  ⟨Reach.create Container.empty "SimpleDefinition" c1defaults "<X>" "uuid-x" 1
    Reach.init rfl (by decide) (by decide),
   by decide, by decide⟩

theorem forall_ne_of_dhas_false {α : Type} {d : List (String × α)} {k : String}
    (h : dhas d k = false) : ∀ kv ∈ d, kv.1 ≠ k := by
  intro kv hkv
  rw [dhas_eq_any] at h
  simp only [List.any_eq_false] at h
  simpa using h kv hkv

theorem nodup_keys_dset {α : Type} {d : List (String × α)} (k : String) (v : α)
    (h : (d.map Prod.fst).Nodup) : ((dset d k v).map Prod.fst).Nodup := by
  cases hh : dhas d k with
  | true => rw [keys_dset_of_dhas_true v hh]; exact h
  | false =>
    rw [dset_eq_append_of_dhas_false v hh, List.map_append]
    refine List.Nodup.append h (List.nodup_singleton _) ?_
    intro a ha hb
    rw [show ([(k, v)].map Prod.fst) = [k] from rfl, List.mem_singleton] at hb
    subst hb
    obtain ⟨kv, hkv, he⟩ := List.mem_map.mp ha
    exact (forall_ne_of_dhas_false hh kv hkv) he

/-- Updating a present key commutes with the pointwise merge map. -/
theorem map_dset_merge {α : Type} (d : List (String × α)) (k : String) (v : α)
    (rest : List (String × α)) (hd : (d.map Prod.fst).Nodup)
    (hrest : dget rest k = none) (hh : dhas d k = true) :
    (dset d k v).map (fun kv => (kv.1, (dget rest kv.1).getD kv.2))
      = d.map (fun kv => (kv.1, (dget ((k, v) :: rest) kv.1).getD kv.2)) := by
  induction d with
  | nil => simp [dhas] at hh
  | cons a d2 ih =>
    simp only [List.map_cons, List.nodup_cons] at hd
    by_cases hk : a.1 = k
    · rw [show dset (a :: d2) k v = (k, v) :: d2 from by simp [dset, hk]]
      simp only [List.map_cons]
      congr 1
      · have h1 : dget ((k, v) :: rest) a.1 = some v := by
          rw [hk]
          show (if k = k then some v else dget rest k) = some v
          rw [if_pos rfl]
        rw [h1, hrest, hk]
        rfl
      · apply List.map_congr_left
        intro x hx
        have hxk : x.1 ≠ k := by
          intro he
          have hm : x.1 ∈ d2.map Prod.fst := List.mem_map.mpr ⟨x, hx, rfl⟩
          rw [he, ← hk] at hm
          exact hd.1 hm
        have h2 : dget ((k, v) :: rest) x.1 = dget rest x.1 := by
          show (if k = x.1 then some v else dget rest x.1) = dget rest x.1
          rw [if_neg (fun he => hxk he.symm)]
        rw [h2]
    · rw [show dset (a :: d2) k v = a :: dset d2 k v from by simp [dset, hk]]
      have hh2 : dhas d2 k = true := by
        cases hd2 : dhas d2 k with
        | true => rfl
        | false =>
          exfalso
          have hx := hh
          rw [show dhas (a :: d2) k = (decide (a.1 = k) || dhas d2 k) from rfl, hd2] at hx
          simp at hx
          exact hk hx
      simp only [List.map_cons]
      congr 1
      · have h2 : dget ((k, v) :: rest) a.1 = dget rest a.1 := by
          show (if k = a.1 then some v else dget rest a.1) = dget rest a.1
          rw [if_neg (fun he => hk he.symm)]
        rw [h2]
      · exact ih hd.2 hh2

/-- Characterization of a Python dict merge: the left dict's entries keep
their positions (values overwritten where the right dict has the key),
and the right dict's new keys are appended in order. -/
theorem dmerge_char (e : AList) :
    ∀ d : AList, (d.map Prod.fst).Nodup → (e.map Prod.fst).Nodup →
      dmerge d e = d.map (fun kv => (kv.1, (dget e kv.1).getD kv.2))
        ++ e.filter (fun kv => !(dhas d kv.1)) := by
  induction e with
  | nil =>
    intro d _ _
    show d = _
    rw [show d.map (fun kv => (kv.1, (dget ([] : AList) kv.1).getD kv.2)) = d.map id from
      List.map_congr_left (fun kv _ => rfl), List.map_id]
    simp
  | cons kv rest ih =>
    obtain ⟨k0, v0⟩ := kv
    intro d hd hnodup
    simp only [List.map_cons, List.nodup_cons] at hnodup
    have hrest : dget rest k0 = none := by
      apply dget_eq_none_of_forall
      intro kv2 h2 he
      exact hnodup.1 (by rw [← he]; exact List.mem_map.mpr ⟨kv2, h2, rfl⟩)
    have hrestk : ∀ x ∈ rest, x.1 ≠ k0 := by
      intro x hx he
      exact hnodup.1 (he ▸ List.mem_map.mpr ⟨x, hx, rfl⟩)
    show dmerge (dset d k0 v0) rest = _
    rw [ih (dset d k0 v0) (nodup_keys_dset k0 v0 hd) hnodup.2]
    cases hh : dhas d k0 with
    | true =>
      rw [map_dset_merge d k0 v0 rest hd hrest hh]
      have hf1 : rest.filter (fun x => !(dhas (dset d k0 v0) x.1))
          = rest.filter (fun x => !(dhas d x.1)) := by
        apply List.filter_congr
        intro x hx
        rw [dhas_dset]
        simp [hrestk x hx]
      have hf2 : ((k0, v0) :: rest).filter (fun x => !(dhas d x.1))
          = rest.filter (fun x => !(dhas d x.1)) := by
        simp [List.filter_cons, hh]
      rw [hf1, hf2]
    | false =>
      rw [dset_eq_append_of_dhas_false v0 hh, List.map_append]
      have hd_ne : ∀ x ∈ d, x.1 ≠ k0 := forall_ne_of_dhas_false hh
      have hmap : d.map (fun x => (x.1, (dget rest x.1).getD x.2))
          = d.map (fun x => (x.1, (dget ((k0, v0) :: rest) x.1).getD x.2)) := by
        apply List.map_congr_left
        intro x hx
        have h2 : dget ((k0, v0) :: rest) x.1 = dget rest x.1 := by
          show (if k0 = x.1 then some v0 else dget rest x.1) = dget rest x.1
          rw [if_neg (fun he => hd_ne x hx he.symm)]
        rw [h2]
      rw [hmap]
      rw [show ([(k0, v0)] : List (String × PValue)).map
          (fun x => (x.1, (dget rest x.1).getD x.2)) = [(k0, (dget rest k0).getD v0)] from rfl]
      rw [hrest]
      have hsing : ((k0, v0) :: rest).filter (fun x => !(dhas d x.1))
          = (k0, v0) :: rest.filter (fun x => !(dhas d x.1)) := by
        simp [List.filter_cons, hh]
      rw [hsing]
      have hfilt : rest.filter (fun x => !(dhas (d ++ [(k0, v0)]) x.1))
          = rest.filter (fun x => !(dhas d x.1)) := by
        apply List.filter_congr
        intro x hx
        rw [dhas_append]
        rw [show dhas [(k0, v0)] x.1 = false from by
          show (decide (k0 = x.1) || false) = false
          simp
          exact fun he => hrestk x hx he.symm]
        simp
      rw [hfilt, List.append_assoc]
      rfl

/-- The public (non-underscore) part of a node's `__dict__`. -/
def publicAttrs (d : DataNode) : AList :=
  d.attrs.filter (fun kv => !(isPrivateKey kv.1))

/-- A value that `Value2BasicTypes` leaves unchanged and
`ContainsOnlyBasicTypes` accepts: plain data with no tuples and no
placeholder-shaped strings. -/
def stablePlain (v : PValue) : Bool :=
  decide (Value2BasicTypes v = v) && ContainsOnlyBasicTypes v

/-- Well-formedness of a global data node as the code itself creates them:
the `NodeBase.__init__` attribute layout followed by the subclass's own
fields (same keys as the class's constructor defaults), no duplicate keys,
a resolvable class, and every public value stable plain data. -/
def DataNodeWF (tblD : DataClassTbl) (d : DataNode) : Prop :=
  ∃ h0 cc0 fs defs,
    tblD d.cls = some defs
    ∧ d.attrs = ("_hash", h0) :: ("_construct_config", cc0)
        :: ("name", .vstr d.nodeName) :: ("_uuid", .vstr d.nodeUuid) :: fs
    ∧ fs.map Prod.fst = defs.map Prod.fst
    ∧ (d.attrs.map Prod.fst).Nodup
    ∧ (∀ kv ∈ d.attrs, isPrivateKey kv.1 = false → stablePlain kv.2 = true)

/-- The node `parse_save_config` reconstructs from `d`'s save record. -/
def loadedNode (tblD : DataClassTbl) (d : DataNode) (oid : Nat) : DataNode :=
  (mkDataNode d.cls ((tblD d.cls).getD []) "[Default]" d.nodeUuid oid).apply_construct_config
    d.get_construct_config

theorem dget_cons_self {α : Type} (k : String) (v : α) (rest : List (String × α)) :
    dget ((k, v) :: rest) k = some v := by
  show (if k = k then some v else dget rest k) = some v
  rw [if_pos rfl]

theorem dget_cons_ne {α : Type} (k1 k : String) (v : α) (rest : List (String × α))
    (h : k1 ≠ k) : dget ((k1, v) :: rest) k = dget rest k := by
  show (if k1 = k then some v else dget rest k) = dget rest k
  rw [if_neg h]

theorem stablePlain_v2b {v : PValue} (h : stablePlain v = true) :
    Value2BasicTypes v = v := by
  unfold stablePlain at h
  rw [Bool.and_eq_true] at h
  exact of_decide_eq_true h.1

theorem stablePlain_basic {v : PValue} (h : stablePlain v = true) :
    ContainsOnlyBasicTypes v = true := by
  unfold stablePlain at h
  rw [Bool.and_eq_true] at h
  exact h.2

/-- On a node whose public values are stable plain data, reading the
construct config is just reading the public `__dict__` slice. -/
theorem gcc_stable (d : DataNode)
    (hstab : ∀ kv ∈ d.attrs, isPrivateKey kv.1 = false → stablePlain kv.2 = true) :
    d.get_construct_config = publicAttrs d := by
  have hmap : (d.attrs.filter (fun kv => !(isPrivateKey kv.1))).map
      (fun kv => (kv.1, Value2BasicTypes kv.2))
      = (d.attrs.filter (fun kv => !(isPrivateKey kv.1))).map id := by
    apply List.map_congr_left
    intro kv hkv
    have hpriv : isPrivateKey kv.1 = false := by
      have := List.of_mem_filter hkv
      simpa using this
    have hs := hstab kv (List.mem_of_mem_filter hkv) hpriv
    show (kv.1, Value2BasicTypes kv.2) = kv
    rw [stablePlain_v2b hs]
  rw [gcc_filter, hmap, List.map_id]
  rfl

theorem keys_filter_key {α : Type} (l : List (String × α)) (p : String → Bool) :
    (l.filter (fun kv => p kv.1)).map Prod.fst = (l.map Prod.fst).filter p := by
  induction l with
  | nil => rfl
  | cons kv rest ih =>
    by_cases hp : p kv.1 = true
    · simp [List.filter_cons, hp, ih]
    · simp only [Bool.not_eq_true] at hp
      simp [List.filter_cons, hp, ih]

theorem filter_map_fst_pres {α : Type} (l : List (String × α)) (F : String × α → String × α)
    (p : String → Bool) (hF : ∀ x, (F x).1 = x.1) :
    (l.map F).filter (fun kv => p kv.1) = (l.filter (fun kv => p kv.1)).map F := by
  induction l with
  | nil => rfl
  | cons kv rest ih =>
    by_cases hp : p kv.1 = true
    · have hp2 : p (F kv).1 = true := by rw [hF kv]; exact hp
      simp [List.filter_cons, List.map_cons, hp, hp2, ih]
    · simp only [Bool.not_eq_true] at hp
      have hp2 : p (F kv).1 = false := by rw [hF kv]; exact hp
      simp [List.filter_cons, List.map_cons, hp, hp2, ih]

/-- Applying a config onto a list whose keys align with the config's
reproduces the config itself. -/
theorem map_applyFormula_of_aligned :
    ∀ (L cfg : AList), L.map Prod.fst = cfg.map Prod.fst →
      (cfg.map Prod.fst).Nodup →
      (∀ kv ∈ cfg, ContainsOnlyBasicTypes kv.2 = true) →
      L.map (applyFormula cfg) = cfg := by
  intro L
  induction L with
  | nil =>
    intro cfg hk _ _
    cases cfg with
    | nil => rfl
    | cons a b => cases hk
  | cons a L2 ih =>
    intro cfg hk hnodup hbasic
    cases cfg with
    | nil => cases hk
    | cons kv cfg2 =>
      obtain ⟨ck, cv⟩ := kv
      simp only [List.map_cons] at hk
      obtain ⟨hk1, hk2⟩ := List.cons_eq_cons.mp hk
      simp only [List.map_cons, List.nodup_cons] at hnodup
      simp only [List.map_cons]
      congr 1
      · have hdg : dget ((ck, cv) :: cfg2) a.1 = some cv := by
          rw [hk1]
          show (if ck = ck then some cv else dget cfg2 ck) = some cv
          rw [if_pos rfl]
        have hb : ContainsOnlyBasicTypes cv = true := hbasic (ck, cv) (by simp)
        unfold applyFormula
        rw [hdg]
        show (if ContainsOnlyBasicTypes cv = true then (a.1, cv) else a) = (ck, cv)
        simp [hb, hk1]
      · have htail : L2.map (applyFormula ((ck, cv) :: cfg2)) = L2.map (applyFormula cfg2) := by
          apply List.map_congr_left
          intro x hx
          have hxk : x.1 ≠ ck := by
            intro he
            have hm : x.1 ∈ L2.map Prod.fst := List.mem_map.mpr ⟨x, hx, rfl⟩
            rw [hk2, he] at hm
            exact hnodup.1 hm
          have hval : dget ((ck, cv) :: cfg2) x.1 = dget cfg2 x.1 := by
            show (if ck = x.1 then some cv else dget cfg2 x.1) = dget cfg2 x.1
            rw [if_neg (fun he => hxk he.symm)]
          show applyFormula ((ck, cv) :: cfg2) x = applyFormula cfg2 x
          unfold applyFormula
          rw [hval]
        rw [htail]
        exact ih cfg2 hk2 hnodup.2 (fun kv2 h2 => hbasic kv2 (by simp [h2]))

/-- Per-node round trip: reconstructing a well-formed node from its
construct config restores class, uuid, display name and the entire public
`__dict__` slice (only the object identity is fresh). -/
theorem loadedNode_spec (tblD : DataClassTbl) (d : DataNode) (oid : Nat)
    (hWF : DataNodeWF tblD d) :
    (loadedNode tblD d oid).cls = d.cls
    ∧ (loadedNode tblD d oid).oid = oid
    ∧ (loadedNode tblD d oid).nodeUuid = d.nodeUuid
    ∧ (loadedNode tblD d oid).nodeName = d.nodeName
    ∧ publicAttrs (loadedNode tblD d oid) = publicAttrs d := by
  obtain ⟨h0, cc0, fs, defs, htbl, hlay, hkeys, hnodup, hstab⟩ := hWF
  set f := mkDataNode d.cls ((tblD d.cls).getD []) "[Default]" d.nodeUuid oid with hf
  have hfattrs : f.attrs = ("_hash", .vnone) :: ("_construct_config", .vdict .nil)
      :: ("name", .vstr "[Default]") :: ("_uuid", .vstr d.nodeUuid) :: defs := by
    rw [hf]
    simp [mkDataNode, htbl]
  have hfkeys : f.attrs.map Prod.fst = d.attrs.map Prod.fst := by
    rw [hfattrs, hlay]
    simp only [List.map_cons]
    rw [hkeys]
  have hfnodup : (f.attrs.map Prod.fst).Nodup := by rw [hfkeys]; exact hnodup
  have hcfg : d.get_construct_config = publicAttrs d := gcc_stable d hstab
  have hp1 : isPrivateKey "_hash" = true := by decide
  have hp2 : isPrivateKey "_construct_config" = true := by decide
  have hp3 : isPrivateKey "name" = false := by decide
  have hp4 : isPrivateKey "_uuid" = true := by decide
  have hpubd : publicAttrs d
      = ("name", .vstr d.nodeName) :: fs.filter (fun kv => !(isPrivateKey kv.1)) := by
    simp [publicAttrs, hlay, List.filter_cons, hp1, hp2, hp3, hp4]
  have hpubf : publicAttrs f
      = ("name", .vstr "[Default]") :: defs.filter (fun kv => !(isPrivateKey kv.1)) := by
    simp [publicAttrs, hfattrs, List.filter_cons, hp1, hp2, hp3, hp4]
  have htails : (fs.filter (fun kv => !(isPrivateKey kv.1))).map Prod.fst
      = (defs.filter (fun kv => !(isPrivateKey kv.1))).map Prod.fst := by
    rw [keys_filter_key fs (fun k => !isPrivateKey k),
        keys_filter_key defs (fun k => !isPrivateKey k), hkeys]
  have happly : (loadedNode tblD d oid).attrs = f.attrs.map (applyFormula d.get_construct_config) := by
    show (f.apply_construct_config d.get_construct_config).attrs = _
    exact apply_construct_config_attrs f _ hfnodup (gcc_keys_nodup d hnodup)
  have hpubloaded : publicAttrs (loadedNode tblD d oid)
      = (publicAttrs f).map (applyFormula d.get_construct_config) := by
    show (loadedNode tblD d oid).attrs.filter (fun kv => !isPrivateKey kv.1)
        = (f.attrs.filter (fun kv => !isPrivateKey kv.1)).map (applyFormula d.get_construct_config)
    rw [happly]
    exact filter_map_fst_pres f.attrs (applyFormula d.get_construct_config)
      (fun k => !isPrivateKey k) (applyFormula_fst d.get_construct_config)
  have halign : (publicAttrs f).map Prod.fst = (publicAttrs d).map Prod.fst := by
    rw [hpubf, hpubd]
    simp only [List.map_cons]
    rw [htails]
  have hpnodup : ((publicAttrs d).map Prod.fst).Nodup := by
    show ((d.attrs.filter (fun kv => !isPrivateKey kv.1)).map Prod.fst).Nodup
    rw [keys_filter_key d.attrs (fun k => !isPrivateKey k)]
    exact hnodup.filter _
  have hbasic : ∀ kv ∈ publicAttrs d, ContainsOnlyBasicTypes kv.2 = true := by
    intro kv hkv
    have hm := List.mem_of_mem_filter hkv
    have hp : isPrivateKey kv.1 = false := by simpa using List.of_mem_filter hkv
    exact stablePlain_basic (hstab kv hm hp)
  have hmain : publicAttrs (loadedNode tblD d oid) = publicAttrs d := by
    rw [hpubloaded, hcfg]
    exact map_applyFormula_of_aligned (publicAttrs f) (publicAttrs d) halign hpnodup hbasic
  have hpriv_absent : ∀ k, isPrivateKey k = true → dget d.get_construct_config k = none := by
    intro k hk
    rw [hcfg]
    apply dget_eq_none_of_forall
    intro kv hkv he
    have hc := List.of_mem_filter hkv
    rw [he, hk] at hc
    simp at hc
  have hnamestab : stablePlain (.vstr d.nodeName) = true := by
    apply hstab ("name", .vstr d.nodeName) _ hp3
    rw [hlay]
    simp
  have hFhash : applyFormula d.get_construct_config ("_hash", PValue.vnone) = ("_hash", .vnone) := by
    unfold applyFormula
    rw [hpriv_absent "_hash" hp1]
  have hFcc : applyFormula d.get_construct_config ("_construct_config", PValue.vdict .nil)
      = ("_construct_config", .vdict .nil) := by
    unfold applyFormula
    rw [hpriv_absent "_construct_config" hp2]
  have hFuuid : applyFormula d.get_construct_config ("_uuid", PValue.vstr d.nodeUuid)
      = ("_uuid", .vstr d.nodeUuid) := by
    unfold applyFormula
    rw [hpriv_absent "_uuid" hp4]
  have hFname : applyFormula d.get_construct_config ("name", PValue.vstr "[Default]")
      = ("name", .vstr d.nodeName) := by
    unfold applyFormula
    rw [show dget d.get_construct_config "name" = some (.vstr d.nodeName) from by
      rw [hcfg, hpubd, dget_cons_self]]
    show (if ContainsOnlyBasicTypes (PValue.vstr d.nodeName) = true
        then ("name", PValue.vstr d.nodeName) else ("name", PValue.vstr "[Default]"))
      = ("name", PValue.vstr d.nodeName)
    rw [stablePlain_basic hnamestab]
    rfl
  have hattrs_loaded : (loadedNode tblD d oid).attrs
      = ("_hash", .vnone) :: ("_construct_config", .vdict .nil)
        :: ("name", .vstr d.nodeName) :: ("_uuid", .vstr d.nodeUuid)
        :: defs.map (applyFormula d.get_construct_config) := by
    rw [happly, hfattrs]
    simp only [List.map_cons]
    rw [hFhash, hFcc, hFname, hFuuid]
  refine ⟨?_, ?_, ?_, ?_, hmain⟩
  · show (f.apply_construct_config d.get_construct_config).cls = d.cls
    rw [apply_construct_config_cls, hf]
    rfl
  · show (f.apply_construct_config d.get_construct_config).oid = oid
    rw [apply_construct_config_oid, hf]
    rfl
  · show DataNode.nodeUuid _ = _
    unfold DataNode.nodeUuid
    rw [hattrs_loaded]
    rw [dget_cons_ne _ _ _ _ (by decide), dget_cons_ne _ _ _ _ (by decide),
        dget_cons_ne _ _ _ _ (by decide), dget_cons_self]
    rfl
  · show DataNode.nodeName _ = _
    unfold DataNode.nodeName
    rw [hattrs_loaded]
    rw [dget_cons_ne _ _ _ _ (by decide), dget_cons_ne _ _ _ _ (by decide),
        dget_cons_self]
    rfl

/-- Folding `Context.add_node` over a list of nodes (the rebuild loop of
`parse_save_config`). -/
def foldAdd (ctx : DataContext) (ns : List DataNode) : DataContext :=
  ns.foldl DataContext.add_node ctx

/-- The nodes `parse_save_config` reconstructs, with sequential fresh
object ids. -/
def loadedNodes (tblD : DataClassTbl) : List DataNode → Nat → List DataNode
  | [], _ => []
  | d :: ds, o => loadedNode tblD d o :: loadedNodes tblD ds (o + 1)

/-- The `uuid → instance` entries `parse_save_config` accumulates. -/
def loadedPairs (tblD : DataClassTbl) : List DataNode → Nat → List (String × DataNode)
  | [], _ => []
  | d :: ds, o => (d.nodeUuid, loadedNode tblD d o) :: loadedPairs tblD ds (o + 1)

/-- One iteration of the global-node loop of `parse_save_config`, applied
to the original node's data. -/
def gLoadStep (tblD : DataClassTbl) (st : GLoad) (d : DataNode) : GLoad :=
  { nodes := dset st.nodes d.nodeUuid (loadedNode tblD d st.nextOid)
    container := st.container.setContext .gck
      (st.container.GlobalContext.add_node (loadedNode tblD d st.nextOid))
    recordsOut := st.recordsOut ++ [d.get_construct_config]
    nextOid := st.nextOid + 1 }

/-- The whole global-node loop. -/
def gLoadAll (tblD : DataClassTbl) (st : GLoad) : List DataNode → GLoad
  | [] => st
  | d :: ds => gLoadAll tblD (gLoadStep tblD st d) ds

theorem dhas_eq_false_of_not_keys {α : Type} {d : List (String × α)} {k : String}
    (h : k ∉ d.map Prod.fst) : dhas d k = false := by
  rw [dhas_eq_any, List.any_eq_false]
  intro kv hkv
  simp only [decide_eq_true_eq]
  intro he
  exact h (he ▸ List.mem_map.mpr ⟨kv, hkv, rfl⟩)

theorem ddel_eq_self_of_forall {α : Type} {d : List (String × α)} {k : String}
    (h : ∀ kv ∈ d, kv.1 ≠ k) : ddel d k = d := by
  apply List.filter_eq_self.mpr
  intro kv hkv
  simpa using h kv hkv

theorem ddel_append {α : Type} (d e : List (String × α)) (k : String) :
    ddel (d ++ e) k = ddel d k ++ ddel e k := by
  unfold ddel
  rw [List.filter_append]

theorem dget_append_single_ne {α : Type} (l : List (String × α)) (k k2 : String) (v : α)
    (h : k ≠ k2) : dget (l ++ [(k, v)]) k2 = dget l k2 := by
  rw [dget_append]
  cases hx : dget l k2 with
  | some w => rfl
  | none =>
    show dget [(k, v)] k2 = none
    show (if k = k2 then some v else (none : Option α)) = none
    rw [if_neg h]

theorem dset_append_not_in {α : Type} (l : List (String × α)) (k : String) (b v : α)
    (h : dget l k = none) : dset (l ++ [(k, b)]) k v = l ++ [(k, v)] := by
  induction l with
  | nil =>
    show dset [(k, b)] k v = [(k, v)]
    show (if k = k then (k, v) :: ([] : List (String × α)) else _) = _
    rw [if_pos rfl]
  | cons kv rest ih =>
    have hk : kv.1 ≠ k := by
      intro he
      have hx : dget (kv :: rest) k = some kv.2 := by
        show (if kv.1 = k then some kv.2 else _) = _
        rw [if_pos he]
      rw [hx] at h
      cases h
    have h2 : dget rest k = none := by
      rw [show dget (kv :: rest) k = dget rest k from by
        show (if kv.1 = k then some kv.2 else dget rest k) = dget rest k
        rw [if_neg hk]] at h
      exact h
    show dset (kv :: (rest ++ [(k, b)])) k v = kv :: (rest ++ [(k, v)])
    rw [show dset (kv :: (rest ++ [(k, b)])) k v = kv :: dset (rest ++ [(k, b)]) k v from by
      simp [dset, hk]]
    rw [ih h2]

theorem nodeIter_append (a b : DataContext) :
    DataContext.nodeIter (a ++ b) = a.nodeIter ++ b.nodeIter := by
  unfold DataContext.nodeIter
  rw [List.map_append, List.flatten_append]

/-- Growing an already-present trailing bucket, one node at a time. -/
theorem foldAdd_bucket : ∀ (ds : List DataNode) (ctx0 : DataContext) (c : String)
    (bucket : List (String × DataNode)),
    (∀ d ∈ ds, d.cls = c) → dget ctx0 c = none →
    ((bucket.map Prod.fst ++ ds.map DataNode.nodeName).Nodup) →
    foldAdd (ctx0 ++ [(c, bucket)]) ds
      = ctx0 ++ [(c, bucket ++ ds.map (fun d => (d.nodeName, d)))] := by
  intro ds
  induction ds with
  | nil =>
    intro ctx0 c bucket _ _ _
    simp [foldAdd]
  | cons d ds2 ih =>
    intro ctx0 c bucket hcls hget hnodup
    have hd : d.cls = c := hcls d (by simp)
    have hgetc : dget (ctx0 ++ [(c, bucket)]) d.cls = some bucket := by
      rw [hd, dget_append, hget]
      show dget [(c, bucket)] c = some bucket
      exact dget_cons_self c bucket []
    have hnm : d.nodeName ∉ bucket.map Prod.fst := by
      intro hmem
      have hdisj := List.disjoint_of_nodup_append hnodup
      exact hdisj hmem (by simp)
    have hadd : DataContext.add_node (ctx0 ++ [(c, bucket)]) d
        = ctx0 ++ [(c, bucket ++ [(d.nodeName, d)])] := by
      unfold DataContext.add_node
      rw [hgetc]
      show dset (ctx0 ++ [(c, bucket)]) d.cls (dset bucket d.nodeName d) = _
      rw [hd, dset_eq_append_of_dhas_false d (dhas_eq_false_of_not_keys hnm)]
      exact dset_append_not_in ctx0 c bucket _ hget
    show foldAdd (DataContext.add_node (ctx0 ++ [(c, bucket)]) d) ds2 = _
    rw [hadd]
    rw [ih ctx0 c (bucket ++ [(d.nodeName, d)]) (fun x hx => hcls x (by simp [hx])) hget
      (by simpa using hnodup)]
    simp

/-- Building a fresh trailing bucket from a class-homogeneous group of
nodes with distinct names. -/
theorem foldAdd_group (ls : List DataNode) (ctx0 : DataContext) (c : String)
    (hcls : ∀ d ∈ ls, d.cls = c) (hget : dget ctx0 c = none)
    (hnodup : (ls.map DataNode.nodeName).Nodup) (hne : ls ≠ []) :
    foldAdd ctx0 ls = ctx0 ++ [(c, ls.map (fun d => (d.nodeName, d)))] := by
  cases ls with
  | nil => exact absurd rfl hne
  | cons d ds2 =>
    have hd : d.cls = c := hcls d (by simp)
    have hadd : DataContext.add_node ctx0 d = ctx0 ++ [(c, [(d.nodeName, d)])] := by
      unfold DataContext.add_node
      rw [hd, hget]
    show foldAdd (DataContext.add_node ctx0 d) ds2 = _
    rw [hadd]
    rw [foldAdd_bucket ds2 ctx0 c [(d.nodeName, d)] (fun x hx => hcls x (by simp [hx])) hget
      (by simpa using hnodup)]
    simp

theorem forall2_split_right {α β : Type} {R : α → β → Prop} :
    ∀ {l1 : List β} {l : List α} {l2 : List β}, List.Forall₂ R l (l1 ++ l2) →
      ∃ m1 m2, l = m1 ++ m2 ∧ List.Forall₂ R m1 l1 ∧ List.Forall₂ R m2 l2 := by
  intro l1
  induction l1 with
  | nil =>
    intro l l2 h
    exact ⟨[], l, rfl, List.Forall₂.nil, h⟩
  | cons b l1x ih =>
    intro l l2 h
    cases h with
    | cons hab htail =>
      obtain ⟨m1, m2, he, h1, h2⟩ := ih htail
      exact ⟨_ :: m1, m2, by rw [he]; rfl, List.Forall₂.cons hab h1, h2⟩

theorem forall2_mem_left {α β : Type} {R : α → β → Prop} :
    ∀ {l1 : List α} {l2 : List β}, List.Forall₂ R l1 l2 → ∀ x ∈ l1, ∃ y ∈ l2, R x y := by
  intro l1 l2 h
  induction h with
  | nil => intro x hx; cases hx
  | cons hab htail ih =>
    intro x hx
    rcases List.mem_cons.mp hx with he | hm
    · exact ⟨_, by simp, he ▸ hab⟩
    · obtain ⟨y, hy, hr⟩ := ih x hm
      exact ⟨y, by simp [hy], hr⟩

theorem forall2_map_eq {α β γ : Type} {R : α → β → Prop} (f : α → γ) (g : β → γ)
    (hfg : ∀ x y, R x y → f x = g y) :
    ∀ {l1 : List α} {l2 : List β}, List.Forall₂ R l1 l2 → l1.map f = l2.map g := by
  intro l1 l2 h
  induction h with
  | nil => rfl
  | cons hab htail ih => simp only [List.map_cons, hfg _ _ hab, ih]

/-- Rebuilding a bucketed context by re-adding, in `NodeIter` order, nodes
that agree bucketwise in class and name: the iteration order of the result
is exactly the list of re-added nodes, and untouched classes keep their
lookups. -/
theorem nodeIter_foldAdd : ∀ (bs : DataContext) (ls : List DataNode) (ctx0 : DataContext),
    ((bs.map Prod.fst).Nodup) →
    (∀ b ∈ bs, dget ctx0 b.1 = none) →
    (∀ b ∈ bs, ((b.2.map Prod.fst).Nodup ∧ ∀ nv ∈ b.2, nv.2.cls = b.1 ∧ nv.2.nodeName = nv.1)) →
    List.Forall₂ (fun l o => l.cls = o.cls ∧ l.nodeName = o.nodeName) ls bs.nodeIter →
    DataContext.nodeIter (foldAdd ctx0 ls) = ctx0.nodeIter ++ ls
    ∧ (∀ c2, c2 ∉ bs.map Prod.fst → dget (foldAdd ctx0 ls) c2 = dget ctx0 c2) := by
  intro bs
  induction bs with
  | nil =>
    intro ls ctx0 _ _ _ hmatch
    cases hmatch
    exact ⟨by simp [foldAdd], fun c2 _ => rfl⟩
  | cons b bs2 ih =>
    intro ls ctx0 hnodup hfresh hwf hmatch
    simp only [List.map_cons, List.nodup_cons] at hnodup
    have hiter : DataContext.nodeIter (b :: bs2)
        = b.2.map Prod.snd ++ DataContext.nodeIter bs2 := rfl
    rw [hiter] at hmatch
    obtain ⟨m1, m2, he, h1, h2⟩ := forall2_split_right hmatch
    subst he
    have hbwf := hwf b (by simp)
    have hm1cls : ∀ x ∈ m1, x.cls = b.1 := by
      intro x hx
      obtain ⟨y, hy, hr⟩ := forall2_mem_left h1 x hx
      obtain ⟨nv, hnv, hesnd⟩ := List.mem_map.mp hy
      rw [hr.1, ← hesnd]
      exact (hbwf.2 nv hnv).1
    have hm1names : m1.map DataNode.nodeName = b.2.map Prod.fst := by
      rw [forall2_map_eq DataNode.nodeName DataNode.nodeName (fun x y hr => hr.2) h1]
      rw [List.map_map]
      exact List.map_congr_left (fun nv hnv => (hbwf.2 nv hnv).2)
    have hm1nodup : (m1.map DataNode.nodeName).Nodup := by
      rw [hm1names]; exact hbwf.1
    rw [show foldAdd ctx0 (m1 ++ m2) = foldAdd (foldAdd ctx0 m1) m2 from
      List.foldl_append _ _ _ _]
    by_cases hm1e : m1 = []
    · subst hm1e
      have hres := ih m2 ctx0 hnodup.2 (fun b2 hb2 => hfresh b2 (by simp [hb2]))
        (fun b2 hb2 => hwf b2 (by simp [hb2])) h2
      refine ⟨?_, ?_⟩
      · show DataContext.nodeIter (foldAdd ctx0 m2) = _
        rw [hres.1]
        simp
      · intro c2 hc2
        exact hres.2 c2 (fun hmem => hc2 (by simp [hmem]))
    · have hgrp := foldAdd_group m1 ctx0 b.1 hm1cls (hfresh b (by simp)) hm1nodup hm1e
      rw [hgrp]
      set ctx1 := ctx0 ++ [(b.1, m1.map (fun d => (d.nodeName, d)))] with hctx1
      have hiter1 : ctx1.nodeIter = ctx0.nodeIter ++ m1 := by
        rw [hctx1, nodeIter_append]
        have hsingle : DataContext.nodeIter [(b.1, m1.map (fun d => (d.nodeName, d)))]
            = (m1.map (fun d => (d.nodeName, d))).map Prod.snd := by
          simp [DataContext.nodeIter]
        rw [hsingle, List.map_map]
        rw [show (m1.map (Prod.snd ∘ fun d => (d.nodeName, d))) = m1.map id from
          List.map_congr_left (fun x _ => rfl), List.map_id]
      have hfresh1 : ∀ b2 ∈ bs2, dget ctx1 b2.1 = none := by
        intro b2 hb2
        have hne2 : b.1 ≠ b2.1 := fun he2 => hnodup.1 (he2 ▸ List.mem_map.mpr ⟨b2, hb2, rfl⟩)
        rw [hctx1, dget_append_single_ne ctx0 b.1 b2.1 _ hne2]
        exact hfresh b2 (by simp [hb2])
      have hres := ih m2 ctx1 hnodup.2 hfresh1 (fun b2 hb2 => hwf b2 (by simp [hb2])) h2
      refine ⟨?_, ?_⟩
      · rw [hres.1, hiter1]
        simp
      · intro c2 hc2
        rw [hres.2 c2 (fun hmem => hc2 (by simp [hmem]))]
        rw [hctx1, dget_append_single_ne ctx0 b.1 c2 _ (fun he2 => hc2 (by simp [he2.symm]))]

/-- Every key a data node's construct config carries is public. -/
theorem gcc_pub_keys (d : DataNode) :
    ∀ kv ∈ d.get_construct_config, isPrivateKey kv.1 = false := by
  intro kv hkv
  rw [gcc_filter] at hkv
  obtain ⟨x, hx, he⟩ := List.mem_map.mp hkv
  have hp := List.of_mem_filter hx
  rw [← he]
  simpa using hp

/-- The save record of a data node: the two id keys in front, the
construct config behind. -/
theorem gsc_shape (d : DataNode) (hnodup : (d.attrs.map Prod.fst).Nodup) :
    d.get_save_config
      = [("_uuid_", .vstr d.nodeUuid), ("_class_", .vstr d.cls)] ++ d.get_construct_config := by
  unfold DataNode.get_save_config
  apply dmerge_eq_append_of_disjoint
  · intro kv hkv
    have hp := gcc_pub_keys d kv hkv
    have h1 : "_uuid_" ≠ kv.1 := by
      intro he
      rw [← he] at hp
      exact absurd hp (by decide)
    have h2 : "_class_" ≠ kv.1 := by
      intro he
      rw [← he] at hp
      exact absurd hp (by decide)
    show (decide ("_uuid_" = kv.1) || (decide ("_class_" = kv.1) || false)) = false
    simp [h1, h2]
  · exact gcc_keys_nodup d hnodup

/-- The global-node loop consumes well-formed records exactly as
`gLoadAll` describes, raising nothing. -/
theorem parseGlobals_strong (tblD : DataClassTbl) :
    ∀ (origs : List DataNode) (st : GLoad),
      (∀ x ∈ origs, DataNodeWF tblD x) →
      parseGlobals tblD st (origs.map DataNode.get_save_config)
        = .ok (gLoadAll tblD st origs) := by
  intro origs
  induction origs with
  | nil => intro st _; rfl
  | cons d ds ih =>
    intro st hWF
    obtain ⟨h0, cc0, fs, defs, htbl, hlay, hkeys, hnodup, hstab⟩ := hWF d (by simp)
    have hpub := gcc_pub_keys d
    have hclassne : ∀ kv ∈ d.get_construct_config, kv.1 ≠ "_class_" := by
      intro kv hkv he
      have hp := hpub kv hkv
      rw [he] at hp
      exact absurd hp (by decide)
    have huuidne : ∀ kv ∈ d.get_construct_config, kv.1 ≠ "_uuid_" := by
      intro kv hkv he
      have hp := hpub kv hkv
      rw [he] at hp
      exact absurd hp (by decide)
    have hshape := gsc_shape d hnodup
    have h1 : dget d.get_save_config "_class_" = some (.vstr d.cls) := by
      rw [hshape, dget_append]
      rw [show dget [("_uuid_", PValue.vstr d.nodeUuid), ("_class_", PValue.vstr d.cls)] "_class_"
          = some (.vstr d.cls) from by
        rw [dget_cons_ne _ _ _ _ (by decide), dget_cons_self]]
    have h2 : ddel d.get_save_config "_class_"
        = ("_uuid_", PValue.vstr d.nodeUuid) :: d.get_construct_config := by
      rw [hshape, ddel_append]
      rw [show ddel [("_uuid_", PValue.vstr d.nodeUuid), ("_class_", PValue.vstr d.cls)] "_class_"
          = [("_uuid_", PValue.vstr d.nodeUuid)] from by
        simp [ddel, List.filter_cons]]
      rw [ddel_eq_self_of_forall hclassne]
      rfl
    have h3 : dget (("_uuid_", PValue.vstr d.nodeUuid) :: d.get_construct_config) "_uuid_"
        = some (.vstr d.nodeUuid) := dget_cons_self _ _ _
    have h4 : ddel (("_uuid_", PValue.vstr d.nodeUuid) :: d.get_construct_config) "_uuid_"
        = d.get_construct_config := by
      rw [show ddel (("_uuid_", PValue.vstr d.nodeUuid) :: d.get_construct_config) "_uuid_"
          = ddel d.get_construct_config "_uuid_" from by
        simp [ddel, List.filter_cons]]
      exact ddel_eq_self_of_forall huuidne
    have hln : loadedNode tblD d st.nextOid
        = (mkDataNode d.cls defs "[Default]" d.nodeUuid st.nextOid).apply_construct_config
            d.get_construct_config := by
      unfold loadedNode
      rw [htbl]
      rfl
    show parseGlobals tblD st (d.get_save_config :: ds.map DataNode.get_save_config) = _
    rw [parseGlobals]
    simp only [h1, h2, h3, h4, htbl]
    rw [← hln]
    show parseGlobals tblD (gLoadStep tblD st d) (List.map DataNode.get_save_config ds) = _
    exact ih (gLoadStep tblD st d) (fun x hx => hWF x (by simp [hx]))

theorem gLoadAll_records (tblD : DataClassTbl) :
    ∀ (origs : List DataNode) (st : GLoad),
      (gLoadAll tblD st origs).recordsOut
        = st.recordsOut ++ origs.map DataNode.get_construct_config := by
  intro origs
  induction origs with
  | nil => intro st; simp [gLoadAll]
  | cons d ds ih =>
    intro st
    show (gLoadAll tblD (gLoadStep tblD st d) ds).recordsOut = _
    rw [ih]
    simp [gLoadStep]

theorem gLoadAll_nextOid (tblD : DataClassTbl) :
    ∀ (origs : List DataNode) (st : GLoad),
      (gLoadAll tblD st origs).nextOid = st.nextOid + origs.length := by
  intro origs
  induction origs with
  | nil => intro st; rfl
  | cons d ds ih =>
    intro st
    show (gLoadAll tblD (gLoadStep tblD st d) ds).nextOid = _
    rw [ih]
    show st.nextOid + 1 + ds.length = st.nextOid + (ds.length + 1)
    omega

theorem gLoadAll_nodes (tblD : DataClassTbl) :
    ∀ (origs : List DataNode) (st : GLoad),
      (∀ x ∈ origs, dhas st.nodes x.nodeUuid = false) →
      ((origs.map DataNode.nodeUuid).Nodup) →
      (gLoadAll tblD st origs).nodes = st.nodes ++ loadedPairs tblD origs st.nextOid := by
  intro origs
  induction origs with
  | nil => intro st _ _; simp [gLoadAll, loadedPairs]
  | cons d ds ih =>
    intro st hfresh hnodup
    simp only [List.map_cons, List.nodup_cons] at hnodup
    have hstep : (gLoadStep tblD st d).nodes
        = st.nodes ++ [(d.nodeUuid, loadedNode tblD d st.nextOid)] := by
      show dset st.nodes d.nodeUuid _ = _
      exact dset_eq_append_of_dhas_false _ (hfresh d (by simp))
    have hfr : ∀ x ∈ ds, dhas (gLoadStep tblD st d).nodes x.nodeUuid = false := by
      intro x hx
      rw [hstep, dhas_append, hfresh x (by simp [hx])]
      have hne : d.nodeUuid ≠ x.nodeUuid :=
        fun he => hnodup.1 (he ▸ List.mem_map.mpr ⟨x, hx, rfl⟩)
      show (false || (decide (d.nodeUuid = x.nodeUuid) || false)) = false
      simp [hne]
    show (gLoadAll tblD (gLoadStep tblD st d) ds).nodes = _
    rw [ih (gLoadStep tblD st d) hfr hnodup.2, hstep]
    show st.nodes ++ [(d.nodeUuid, loadedNode tblD d st.nextOid)]
        ++ loadedPairs tblD ds (st.nextOid + 1) = _
    simp [loadedPairs, List.append_assoc]

theorem gLoadAll_container (tblD : DataClassTbl) :
    ∀ (origs : List DataNode) (st : GLoad),
      (gLoadAll tblD st origs).container.GlobalContext
          = foldAdd st.container.GlobalContext (loadedNodes tblD origs st.nextOid)
      ∧ (gLoadAll tblD st origs).container.actions = st.container.actions := by
  intro origs
  induction origs with
  | nil => intro st; exact ⟨rfl, rfl⟩
  | cons d ds ih =>
    intro st
    constructor
    · show (gLoadAll tblD (gLoadStep tblD st d) ds).container.GlobalContext = _
      rw [(ih (gLoadStep tblD st d)).1]
      have hg : (gLoadStep tblD st d).container.GlobalContext
          = st.container.GlobalContext.add_node (loadedNode tblD d st.nextOid) :=
        getContext_setContext_self st.container .gck _
      rw [hg]
      rfl
    · show (gLoadAll tblD (gLoadStep tblD st d) ds).container.actions = _
      rw [(ih (gLoadStep tblD st d)).2]
      show (st.container.setContext .gck _).actions = _
      rw [setContext_actions]

theorem forall_ne_of_dget_none {α : Type} {d : List (String × α)} {k : String}
    (h : dget d k = none) : ∀ kv ∈ d, kv.1 ≠ k :=
  forall_ne_of_dhas_false (dhas_eq_false_of_dget_none h)

theorem dhas_iff_mem_keys {α : Type} (d : List (String × α)) (k : String) :
    dhas d k = true ↔ k ∈ d.map Prod.fst := by
  rw [dhas_eq_any, List.any_eq_true]
  constructor
  · rintro ⟨kv, hkv, he⟩
    exact (of_decide_eq_true he) ▸ List.mem_map.mpr ⟨kv, hkv, rfl⟩
  · intro hm
    obtain ⟨kv, hkv, he⟩ := List.mem_map.mp hm
    exact ⟨kv, hkv, decide_eq_true he⟩

theorem dget_filter_keep {α : Type} (l : List (String × α)) (q : String → Bool) (k : String)
    (hq : q k = true) : dget (l.filter (fun kv => q kv.1)) k = dget l k := by
  induction l with
  | nil => rfl
  | cons kv rest ih =>
    obtain ⟨k1, v1⟩ := kv
    by_cases hk : k1 = k
    · have hqkv : q k1 = true := by rw [hk]; exact hq
      rw [List.filter_cons, if_pos hqkv]
      show (if k1 = k then some v1 else dget (rest.filter (fun kv => q kv.1)) k)
          = (if k1 = k then some v1 else dget rest k)
      rw [if_pos hk, if_pos hk]
    · by_cases hq2 : q k1 = true
      · rw [List.filter_cons, if_pos hq2]
        show (if k1 = k then some v1 else dget (rest.filter (fun kv => q kv.1)) k)
            = (if k1 = k then some v1 else dget rest k)
        rw [if_neg hk, if_neg hk, ih]
      · rw [List.filter_cons, if_neg hq2, ih]
        show dget rest k = (if k1 = k then some v1 else dget rest k)
        rw [if_neg hk]

theorem dset_eq_self_of_dget {α : Type} {l : List (String × α)} {k : String} {v : α}
    (h : dget l k = some v) : dset l k v = l := by
  induction l with
  | nil => cases h
  | cons kv rest ih =>
    by_cases hk : kv.1 = k
    · have hv : kv.2 = v := by
        rw [show dget (kv :: rest) k = some kv.2 from by
          show (if kv.1 = k then some kv.2 else _) = _
          rw [if_pos hk]] at h
        exact Option.some.inj h
      rw [show dset (kv :: rest) k v = (k, v) :: rest from by simp [dset, hk]]
      rw [← hk, ← hv]
    · have h2 : dget rest k = some v := by
        rw [show dget (kv :: rest) k = dget rest k from by
          show (if kv.1 = k then some kv.2 else dget rest k) = _
          rw [if_neg hk]] at h
        exact h
      rw [show dset (kv :: rest) k v = kv :: dset rest k v from by simp [dset, hk]]
      rw [ih h2]

/-- Structure of the combined config `ActionNode.get_construct_config`
returns, for a node whose stored config is duplicate-free, clean of the
reserved save keys, and consistent with the node's `name`/`out_name`. -/
theorem comOf_facts (b : ActionNode)
    (hnodup : (b.construct_config.map Prod.fst).Nodup)
    (hname : dget b.construct_config "name" = none
      ∨ dget b.construct_config "name" = some (.vstr b.name))
    (hout : dget b.construct_config "out_name" = none
      ∨ dget b.construct_config "out_name" = b.out_name.map (fun o => PValue.vstr o))
    (hclean : ∀ k ∈ b.construct_config.map Prod.fst,
      k ≠ "_uuid_" ∧ k ≠ "_class_" ∧ k ≠ "_context_") :
    ∃ tail, comOf b = ("name", .vstr b.name) :: tail
      ∧ ("name" ∉ tail.map Prod.fst)
      ∧ (((comOf b).map Prod.fst).Nodup)
      ∧ (∀ k ∈ (comOf b).map Prod.fst, k ≠ "_uuid_" ∧ k ≠ "_class_" ∧ k ≠ "_context_")
      ∧ dget (comOf b) "name" = some (.vstr b.name)
      ∧ dget (comOf b) "out_name" = b.out_name.map (fun o => PValue.vstr o) := by
  have hchar := dmerge_char b.construct_config [("name", PValue.vstr b.name)] (by simp) hnodup
  have hhead : (dget b.construct_config "name").getD (PValue.vstr b.name) = PValue.vstr b.name := by
    rcases hname with h | h <;> rw [h] <;> rfl
  have hcom1 : dmerge [("name", PValue.vstr b.name)] b.construct_config
      = ("name", PValue.vstr b.name)
        :: b.construct_config.filter (fun kv => !(dhas [("name", PValue.vstr b.name)] kv.1)) := by
    rw [hchar]
    show ("name", (dget b.construct_config "name").getD (PValue.vstr b.name)) :: _ = _
    rw [hhead]
    rfl
  set tail0 := b.construct_config.filter
      (fun kv => !(dhas [("name", PValue.vstr b.name)] kv.1)) with htail0
  have htail0sub : ∀ k ∈ tail0.map Prod.fst, k ∈ b.construct_config.map Prod.fst := by
    intro k hk
    obtain ⟨kv, hkv, he⟩ := List.mem_map.mp hk
    exact he ▸ List.mem_map.mpr ⟨kv, List.mem_of_mem_filter hkv, rfl⟩
  have htail0name : "name" ∉ tail0.map Prod.fst := by
    intro hmem
    obtain ⟨kv, hkv, he⟩ := List.mem_map.mp hmem
    have hf := List.of_mem_filter hkv
    rw [show dhas [("name", PValue.vstr b.name)] kv.1
        = (decide ("name" = kv.1) || false) from rfl] at hf
    rw [he] at hf
    simp at hf
  have htail0nodup : (tail0.map Prod.fst).Nodup := by
    rw [htail0, keys_filter_key b.construct_config
      (fun k => !(dhas [("name", PValue.vstr b.name)] k))]
    exact hnodup.filter _
  have hq_out : (fun k => !(dhas [("name", PValue.vstr b.name)] k)) "out_name" = true := by
    show (!(decide ("name" = "out_name") || false)) = true
    rfl
  have htail0out : dget tail0 "out_name" = dget b.construct_config "out_name" := by
    rw [htail0]
    exact dget_filter_keep b.construct_config
      (fun k => !(dhas [("name", PValue.vstr b.name)] k)) "out_name" hq_out
  have hnameoutne : ("name" : String) ≠ "out_name" := by decide
  cases hb : b.out_name with
  | none =>
    rw [hb] at hout
    have houtn : dget b.construct_config "out_name" = none := by
      rcases hout with h | h
      · exact h
      · exact h
    have hcomOf : comOf b = ("name", PValue.vstr b.name) :: tail0 := by
      show (match b.out_name with
        | some o => dset (dmerge [("name", PValue.vstr b.name)] b.construct_config)
            "out_name" (PValue.vstr o)
        | none => dmerge [("name", PValue.vstr b.name)] b.construct_config) = _
      rw [hb]
      exact hcom1
    refine ⟨tail0, hcomOf, htail0name, ?_, ?_, ?_, ?_⟩
    · rw [hcomOf]
      simp only [List.map_cons, List.nodup_cons]
      exact ⟨htail0name, htail0nodup⟩
    · intro k hk
      rw [hcomOf] at hk
      simp only [List.map_cons, List.mem_cons] at hk
      rcases hk with he | hm
      · subst he
        refine ⟨by decide, by decide, by decide⟩
      · exact hclean k (htail0sub k hm)
    · rw [hcomOf, dget_cons_self]
    · rw [hcomOf, dget_cons_ne _ _ _ _ hnameoutne, htail0out, houtn]
      rfl
  | some o =>
    have hcomOf : comOf b
        = ("name", PValue.vstr b.name) :: dset tail0 "out_name" (PValue.vstr o) := by
      show (match b.out_name with
        | some o2 => dset (dmerge [("name", PValue.vstr b.name)] b.construct_config)
            "out_name" (PValue.vstr o2)
        | none => dmerge [("name", PValue.vstr b.name)] b.construct_config) = _
      rw [hb, hcom1]
      simp [dset, hnameoutne]
    have htailname : "name" ∉ (dset tail0 "out_name" (PValue.vstr o)).map Prod.fst := by
      intro hmem
      have hd := (dhas_iff_mem_keys _ _).mpr hmem
      rw [dhas_dset] at hd
      rw [dhas_eq_false_of_not_keys htail0name] at hd
      simp at hd
    refine ⟨dset tail0 "out_name" (PValue.vstr o), hcomOf, htailname, ?_, ?_, ?_, ?_⟩
    · rw [hcomOf]
      simp only [List.map_cons, List.nodup_cons]
      exact ⟨htailname, nodup_keys_dset _ _ htail0nodup⟩
    · intro k hk
      rw [hcomOf] at hk
      simp only [List.map_cons, List.mem_cons] at hk
      rcases hk with he | hm
      · subst he
        refine ⟨by decide, by decide, by decide⟩
      · have hd := (dhas_iff_mem_keys _ _).mpr hm
        rw [dhas_dset, Bool.or_eq_true] at hd
        rcases hd with h | h
        · exact hclean k (htail0sub k ((dhas_iff_mem_keys _ _).mp h))
        · have : k = "out_name" := of_decide_eq_true h
          subst this
          refine ⟨by decide, by decide, by decide⟩
    · rw [hcomOf, dget_cons_self]
    · rw [hcomOf, dget_cons_ne _ _ _ _ hnameoutne, dget_dset_self]
      rfl

/-- The loop body of the seeding pass of `ActionNode.get_construct_config`,
named for reasoning. -/
def seedStep (cfg : AList) (kp : String × SigParam) : AList :=
  if kp.1 = "self" then cfg
  else match kp.2.default with
    | some d => dset cfg kp.1 d
    | none => match kp.2.ann with
      | .empty => dset cfg kp.1 (.vstr "<Any>")
      | a => dset cfg kp.1 (Annotation2Config a)

theorem seedConfig_eq_foldl (params : List (String × SigParam)) :
    seedConfig params = params.foldl seedStep [] := rfl

theorem seedStep_cases (cfg : AList) (kp : String × SigParam) :
    seedStep cfg kp = cfg ∨ ∃ v, seedStep cfg kp = dset cfg kp.1 v := by
  unfold seedStep
  by_cases h : kp.1 = "self"
  · rw [if_pos h]
    exact Or.inl rfl
  · rw [if_neg h]
    cases kp.2.default with
    | some dv => exact Or.inr ⟨dv, rfl⟩
    | none =>
      cases kp.2.ann with
      | empty => exact Or.inr ⟨_, rfl⟩
      | basic t => exact Or.inr ⟨_, rfl⟩
      | enum en ms => exact Or.inr ⟨_, rfl⟩
      | dataNode cl => exact Or.inr ⟨_, rfl⟩
      | listOf a2 => exact Or.inr ⟨_, rfl⟩
      | tupleOf args => exact Or.inr ⟨_, rfl⟩

theorem foldl_seedStep_facts : ∀ (params : List (String × SigParam)) (acc : AList),
    ((acc.map Prod.fst).Nodup) →
    (((params.foldl seedStep acc).map Prod.fst).Nodup)
    ∧ (∀ k, dhas (params.foldl seedStep acc) k = true →
        dhas acc k = true ∨ k ∈ params.map Prod.fst) := by
  intro params
  induction params with
  | nil => intro acc h; exact ⟨h, fun k hk => Or.inl hk⟩
  | cons kp rest ih =>
    intro acc h
    have hstep := seedStep_cases acc kp
    have hnext : ((seedStep acc kp).map Prod.fst).Nodup := by
      rcases hstep with he | ⟨v, he⟩
      · rw [he]; exact h
      · rw [he]; exact nodup_keys_dset _ _ h
    obtain ⟨hn, hsub⟩ := ih (seedStep acc kp) hnext
    refine ⟨hn, ?_⟩
    intro k hk
    rcases hsub k hk with hacc | hmem
    · rcases hstep with he | ⟨v, he⟩
      · rw [he] at hacc
        exact Or.inl hacc
      · rw [he, dhas_dset, Bool.or_eq_true] at hacc
        rcases hacc with h1 | h1
        · exact Or.inl h1
        · exact Or.inr (by simp [of_decide_eq_true h1])
    · exact Or.inr (by simp [hmem])

/-- Well-formedness of a stored action as the code itself produces it:
resolvable class matching the held signature, duplicate-free stored config
clean of the reserved save keys and consistent with the node's
`name`/`out_name`, signature parameter names clean of the reserved and
adopted keys, and a context key that is `GCK` or resolvable in the node
map. -/
def ActionWF (tblA : ActClassTbl) (N : List (String × DataNode)) (a : ActionNode) : Prop :=
  tblA a.cls = some a.spec
  ∧ (a.construct_config.map Prod.fst).Nodup
  ∧ (∀ k ∈ a.construct_config.map Prod.fst,
      k ≠ "_uuid_" ∧ k ≠ "_class_" ∧ k ≠ "_context_")
  ∧ (dget a.construct_config "name" = none
      ∨ dget a.construct_config "name" = some (.vstr a.name))
  ∧ (dget a.construct_config "out_name" = none
      ∨ dget a.construct_config "out_name" = a.out_name.map (fun o => PValue.vstr o))
  ∧ (∀ kp ∈ a.spec.sigParams,
      kp.1 ≠ "_uuid_" ∧ kp.1 ≠ "_class_" ∧ kp.1 ≠ "_context_"
      ∧ kp.1 ≠ "name" ∧ kp.1 ≠ "out_name")
  ∧ (a.context_key = .gck
      ∨ ∃ o u n, a.context_key = .node o u ∧ dget N u = some n ∧ n.nodeUuid = u)

theorem gcc_snd_fields (a : ActionNode) :
    ((a.get_construct_config).2).cls = a.cls
    ∧ ((a.get_construct_config).2).spec = a.spec
    ∧ ((a.get_construct_config).2).uuid = a.uuid
    ∧ ((a.get_construct_config).2).name = a.name
    ∧ ((a.get_construct_config).2).context_key = a.context_key := by
  rw [gcc_spec]
  by_cases h : a.construct_config = [] <;> simp [h, seedAct]

/-- The node returned by `get_construct_config` (possibly freshly seeded)
satisfies the prerequisites of `comOf_facts`. -/
theorem comWF_of_saved (tblA : ActClassTbl) (N : List (String × DataNode)) (a : ActionNode)
    (hWF : ActionWF tblA N a) :
    (((a.get_construct_config).2).construct_config.map Prod.fst).Nodup
    ∧ (dget ((a.get_construct_config).2).construct_config "name" = none
        ∨ dget ((a.get_construct_config).2).construct_config "name"
            = some (.vstr ((a.get_construct_config).2).name))
    ∧ (dget ((a.get_construct_config).2).construct_config "out_name" = none
        ∨ dget ((a.get_construct_config).2).construct_config "out_name"
            = ((a.get_construct_config).2).out_name.map (fun o => PValue.vstr o))
    ∧ (∀ k ∈ ((a.get_construct_config).2).construct_config.map Prod.fst,
        k ≠ "_uuid_" ∧ k ≠ "_class_" ∧ k ≠ "_context_") := by
  obtain ⟨htbl, hnodup, hclean, hname, hout, hsig, hctx⟩ := hWF
  rw [gcc_spec]
  by_cases h : a.construct_config = []
  · rw [if_pos h]
    have habs : ∀ k2 ∈ (["name", "out_name", "_uuid_", "_class_", "_context_"] : List String),
        dhas (seedConfig a.spec.sigParams) k2 = false := by
      intro k2 hk2
      cases hd : dhas (seedConfig a.spec.sigParams) k2 with
      | false => rfl
      | true =>
        exfalso
        rw [seedConfig_eq_foldl] at hd
        rcases (foldl_seedStep_facts a.spec.sigParams [] (by simp)).2 k2 hd with h1 | h1
        · cases h1
        · obtain ⟨kp, hkp, he⟩ := List.mem_map.mp h1
          have hs := hsig kp hkp
          subst he
          simp only [List.mem_cons, List.not_mem_nil, or_false] at hk2
          rcases hk2 with he2 | he2 | he2 | he2 | he2
          · exact hs.2.2.2.1 he2
          · exact hs.2.2.2.2 he2
          · exact hs.1 he2
          · exact hs.2.1 he2
          · exact hs.2.2.1 he2
    refine ⟨?_, ?_, ?_, ?_⟩
    · show ((seedAct a).construct_config.map Prod.fst).Nodup
      rw [seedAct_cc, seedConfig_eq_foldl]
      exact (foldl_seedStep_facts a.spec.sigParams [] (by simp)).1
    · refine Or.inl ?_
      show dget (seedAct a).construct_config "name" = none
      rw [seedAct_cc]
      exact dget_eq_none_of_dhas_false (habs "name" (by simp))
    · refine Or.inl ?_
      show dget (seedAct a).construct_config "out_name" = none
      rw [seedAct_cc]
      exact dget_eq_none_of_dhas_false (habs "out_name" (by simp))
    · show ∀ k ∈ ((seedAct a).construct_config.map Prod.fst), _
      rw [seedAct_cc]
      intro k hk
      have hd := (dhas_iff_mem_keys _ _).mpr hk
      rw [seedConfig_eq_foldl] at hd
      rcases (foldl_seedStep_facts a.spec.sigParams [] (by simp)).2 k hd with h1 | h1
      · cases h1
      · obtain ⟨kp, hkp, he⟩ := List.mem_map.mp h1
        have hs := hsig kp hkp
        subst he
        exact ⟨hs.1, hs.2.1, hs.2.2.1⟩
  · rw [if_neg h]
    exact ⟨hnodup, hname, hout, hclean⟩

/-- Equality of context bindings up to object identity: load replaces the
bound node object but preserves which uuid the action is bound to. -/
def ctxBindEquiv : CtxKey → CtxKey → Prop
  | .gck, .gck => True
  | .node _ u1, .node _ u2 => u1 = u2
  | _, _ => False

/-- Action equivalence after a round trip: everything observable is
restored except the volatile run status and the object identity of the
bound context node. -/
def actionEquiv (x y : ActionNode) : Prop :=
  x.cls = y.cls ∧ x.spec = y.spec ∧ x.uuid = y.uuid ∧ x.name = y.name
  ∧ x.out_name = y.out_name
  ∧ (x.get_construct_config).1 = (y.get_construct_config).1
  ∧ ctxBindEquiv x.context_key y.context_key

/-- Applying a well-shaped combined config onto a fresh action instance. -/
theorem apply_comOf_spec (b : ActionNode) (cls : String) (spec : ActionClass)
    (ck : CtxKey) (u : String)
    (hn : dget (comOf b) "name" = some (.vstr b.name))
    (ho : dget (comOf b) "out_name" = b.out_name.map (fun o => PValue.vstr o)) :
    (mkActionNode cls spec ck u).apply_construct_config (comOf b)
      = { cls := cls, spec := spec, uuid := u, name := b.name, status := .CONFIGURED,
          out_name := b.out_name, construct_config := comOf b, context_key := ck } := by
  obtain ⟨bcls, bspec, buuid, bname, bstat, bout, bcc, bck⟩ := b
  unfold ActionNode.apply_construct_config
  rw [hn, ho]
  cases bout with
  | none => rfl
  | some o => rfl

/-- A loaded action (fresh instance configured with the saved combined
config) reports the same combined config as the saved node. -/
theorem gcc_fst_of_loaded (b : ActionNode) (la : ActionNode)
    (hn : la.name = b.name) (ho : la.out_name = b.out_name)
    (hcc : la.construct_config = comOf b)
    (tail : AList)
    (hcomeq : comOf b = ("name", .vstr b.name) :: tail)
    (htailname : "name" ∉ tail.map Prod.fst)
    (hcomnodup : ((comOf b).map Prod.fst).Nodup)
    (hcomname : dget (comOf b) "name" = some (.vstr b.name))
    (hcomout : dget (comOf b) "out_name" = b.out_name.map (fun o => PValue.vstr o)) :
    (la.get_construct_config).1 = comOf b := by
  have hne : ¬(la.construct_config = []) := by
    rw [hcc, hcomeq]
    exact List.cons_ne_nil _ _
  rw [gcc_spec, if_neg hne]
  show comOf la = comOf b
  have hm : dmerge [("name", PValue.vstr la.name)] la.construct_config = comOf b := by
    rw [hcc, hn]
    rw [dmerge_char (comOf b) [("name", PValue.vstr b.name)] (by simp) hcomnodup]
    rw [show (([("name", PValue.vstr b.name)] : AList).map
        (fun kv => (kv.1, (dget (comOf b) kv.1).getD kv.2)))
        = [("name", (dget (comOf b) "name").getD (PValue.vstr b.name))] from rfl]
    rw [hcomname]
    have hfilt : (comOf b).filter (fun kv => !(dhas [("name", PValue.vstr b.name)] kv.1))
        = tail := by
      rw [hcomeq, List.filter_cons]
      rw [if_neg (show ¬((!(dhas [("name", PValue.vstr b.name)]
          (("name", PValue.vstr b.name) : String × PValue).1)) = true) from by
        show ¬((!(decide ("name" = "name") || false)) = true)
        decide)]
      apply List.filter_eq_self.mpr
      intro kv hkv
      have hne2 : kv.1 ≠ "name" := fun he => htailname (he ▸ List.mem_map.mpr ⟨kv, hkv, rfl⟩)
      show (!(decide ("name" = kv.1) || false)) = true
      simp
      exact fun he => hne2 he.symm
    rw [hfilt, hcomeq]
    rfl
  show (match la.out_name with
    | some o => dset (dmerge [("name", PValue.vstr la.name)] la.construct_config)
        "out_name" (PValue.vstr o)
    | none => dmerge [("name", PValue.vstr la.name)] la.construct_config) = comOf b
  rw [ho]
  cases hbo : b.out_name with
  | none => exact hm
  | some o =>
    rw [hm]
    apply dset_eq_self_of_dget
    rw [hcomout, hbo]
    rfl

/-- One iteration of the action loop of `parse_save_config` on a
well-formed action's save record: nothing is raised, the loaded action is
appended, and it is equivalent to the (possibly seeded) saved one. -/
theorem parseActions_step (tblA : ActClassTbl) (N : List (String × DataNode))
    (a : ActionNode) (hWF : ActionWF tblA N a) (c : Container) (recs : List AList)
    (rest : List AList) :
    ∃ la, parseActions tblA N c recs ((a.get_save_config).1 :: rest)
        = parseActions tblA N { c with actions := c.actions ++ [la] }
            (recs ++ [comOf (a.get_construct_config).2]) rest
      ∧ actionEquiv la (a.get_save_config).2 := by
  obtain ⟨bnodup, bname, bout, bclean⟩ := comWF_of_saved tblA N a hWF
  obtain ⟨htbl, hccnodup, hccclean, hccname, hccout, hsig, hctx⟩ := hWF
  obtain ⟨tail, hcomeq, htailname, hcomnodup, hcomclean, hcomname, hcomout⟩ :=
    comOf_facts (a.get_construct_config).2 bnodup bname bout bclean
  obtain ⟨hfcls, hfspec, hfuuid, hfname, hfck⟩ := gcc_snd_fields a
  have hcom_cc : (a.get_construct_config).1 = comOf (a.get_construct_config).2 := by
    rw [gcc_spec]
  have hsaved2 : (a.get_save_config).2 = (a.get_construct_config).2 := rfl
  have hcomclean2 : ∀ kv ∈ comOf (a.get_construct_config).2,
      kv.1 ≠ "_uuid_" ∧ kv.1 ≠ "_class_" ∧ kv.1 ≠ "_context_" :=
    fun kv hkv => hcomclean kv.1 (List.mem_map.mpr ⟨kv, hkv, rfl⟩)
  have hbase : dmerge [("_uuid_", PValue.vstr a.uuid), ("_class_", PValue.vstr a.cls)]
      (a.get_construct_config).1
      = [("_uuid_", PValue.vstr a.uuid), ("_class_", PValue.vstr a.cls)]
        ++ comOf (a.get_construct_config).2 := by
    rw [hcom_cc]
    apply dmerge_eq_append_of_disjoint
    · intro kv hkv
      have hc := hcomclean2 kv hkv
      have h1 : "_uuid_" ≠ kv.1 := fun he => hc.1 he.symm
      have h2 : "_class_" ≠ kv.1 := fun he => hc.2.1 he.symm
      show (decide ("_uuid_" = kv.1) || (decide ("_class_" = kv.1) || false)) = false
      simp [h1, h2]
    · exact hcomnodup
  have hdel_com_class : ddel (comOf (a.get_construct_config).2) "_class_"
      = comOf (a.get_construct_config).2 :=
    ddel_eq_self_of_forall (fun kv hkv => (hcomclean2 kv hkv).2.1)
  have hdel_com_uuid : ddel (comOf (a.get_construct_config).2) "_uuid_"
      = comOf (a.get_construct_config).2 :=
    ddel_eq_self_of_forall (fun kv hkv => (hcomclean2 kv hkv).1)
  have hnoctx : dget (comOf (a.get_construct_config).2) "_context_" = none :=
    dget_eq_none_of_forall (fun kv hkv => (hcomclean2 kv hkv).2.2)
  have h1a : dget ([("_uuid_", PValue.vstr a.uuid), ("_class_", PValue.vstr a.cls)]
      ++ comOf (a.get_construct_config).2) "_class_" = some (PValue.vstr a.cls) := by
    rw [dget_append]
    rw [show dget [("_uuid_", PValue.vstr a.uuid), ("_class_", PValue.vstr a.cls)] "_class_"
        = some (PValue.vstr a.cls) from by
      rw [dget_cons_ne _ _ _ _ (by decide), dget_cons_self]]
  have h3 : dget (("_uuid_", PValue.vstr a.uuid) :: comOf (a.get_construct_config).2) "_uuid_"
      = some (PValue.vstr a.uuid) := dget_cons_self _ _ _
  have h4 : ddel (("_uuid_", PValue.vstr a.uuid) :: comOf (a.get_construct_config).2) "_uuid_"
      = comOf (a.get_construct_config).2 := by
    rw [show ddel (("_uuid_", PValue.vstr a.uuid) :: comOf (a.get_construct_config).2) "_uuid_"
        = ddel (comOf (a.get_construct_config).2) "_uuid_" from by
      simp [ddel, List.filter_cons]]
    exact hdel_com_uuid
  rcases hctx with hg | ⟨o, u, n, hck, hNget, hnu⟩
  · have hr : (a.get_save_config).1
        = [("_uuid_", PValue.vstr a.uuid), ("_class_", PValue.vstr a.cls)]
          ++ comOf (a.get_construct_config).2 := by
      rw [show (a.get_save_config).1 = (match a.context_key with
          | .gck => dmerge [("_uuid_", PValue.vstr a.uuid), ("_class_", PValue.vstr a.cls)]
              (a.get_construct_config).1
          | .node o2 u2 => dset (dmerge [("_uuid_", PValue.vstr a.uuid),
              ("_class_", PValue.vstr a.cls)] (a.get_construct_config).1)
              "_context_" (PValue.vstr u2)) from rfl]
      rw [hg]
      exact hbase
    have h2 : ddel ((a.get_save_config).1) "_class_"
        = ("_uuid_", PValue.vstr a.uuid) :: comOf (a.get_construct_config).2 := by
      rw [hr, ddel_append]
      rw [show ddel [("_uuid_", PValue.vstr a.uuid), ("_class_", PValue.vstr a.cls)] "_class_"
          = [("_uuid_", PValue.vstr a.uuid)] from rfl]
      rw [hdel_com_class]
      rfl
    have h1 : dget ((a.get_save_config).1) "_class_" = some (PValue.vstr a.cls) := by
      rw [hr]
      exact h1a
    refine ⟨(mkActionNode a.cls a.spec .gck a.uuid).apply_construct_config
        (comOf (a.get_construct_config).2), ?_, ?_⟩
    · rw [parseActions]
      simp only [h1, h2, h3, h4, htbl, hnoctx]
    · rw [hsaved2]
      rw [apply_comOf_spec (a.get_construct_config).2 a.cls a.spec .gck a.uuid hcomname hcomout]
      refine ⟨hfcls.symm, hfspec.symm, hfuuid.symm, rfl, rfl, ?_, ?_⟩
      · rw [show (((a.get_construct_config).2).get_construct_config).1
            = comOf (a.get_construct_config).2 from by rw [gcc_second_call, hcom_cc]]
        exact gcc_fst_of_loaded (a.get_construct_config).2 _ rfl rfl rfl tail hcomeq
          htailname hcomnodup hcomname hcomout
      · show ctxBindEquiv CtxKey.gck ((a.get_construct_config).2).context_key
        rw [hfck, hg]
        exact True.intro
  · have hctxkey_absent : dhas ([("_uuid_", PValue.vstr a.uuid), ("_class_", PValue.vstr a.cls)]
        ++ comOf (a.get_construct_config).2) "_context_" = false := by
      rw [dhas_append]
      rw [show dhas [("_uuid_", PValue.vstr a.uuid), ("_class_", PValue.vstr a.cls)] "_context_"
          = false from rfl]
      rw [dhas_eq_false_of_not_keys
        (fun hmem => ((hcomclean "_context_" hmem).2.2 rfl))]
      rfl
    have hr : (a.get_save_config).1
        = ([("_uuid_", PValue.vstr a.uuid), ("_class_", PValue.vstr a.cls)]
            ++ comOf (a.get_construct_config).2) ++ [("_context_", PValue.vstr u)] := by
      rw [show (a.get_save_config).1 = (match a.context_key with
          | .gck => dmerge [("_uuid_", PValue.vstr a.uuid), ("_class_", PValue.vstr a.cls)]
              (a.get_construct_config).1
          | .node o2 u2 => dset (dmerge [("_uuid_", PValue.vstr a.uuid),
              ("_class_", PValue.vstr a.cls)] (a.get_construct_config).1)
              "_context_" (PValue.vstr u2)) from rfl]
      rw [hck]
      show dset (dmerge [("_uuid_", PValue.vstr a.uuid), ("_class_", PValue.vstr a.cls)]
          (a.get_construct_config).1) "_context_" (PValue.vstr u) = _
      rw [hbase]
      exact dset_eq_append_of_dhas_false _ hctxkey_absent
    have h1 : dget ((a.get_save_config).1) "_class_" = some (PValue.vstr a.cls) := by
      rw [hr, dget_append, h1a]
    have h2 : ddel ((a.get_save_config).1) "_class_"
        = (("_uuid_", PValue.vstr a.uuid) :: comOf (a.get_construct_config).2)
          ++ [("_context_", PValue.vstr u)] := by
      rw [hr, ddel_append, ddel_append]
      rw [show ddel [("_uuid_", PValue.vstr a.uuid), ("_class_", PValue.vstr a.cls)] "_class_"
          = [("_uuid_", PValue.vstr a.uuid)] from rfl]
      rw [hdel_com_class]
      rw [show ddel [("_context_", PValue.vstr u)] "_class_"
          = [("_context_", PValue.vstr u)] from rfl]
      rfl
    have h3b : dget ((("_uuid_", PValue.vstr a.uuid) :: comOf (a.get_construct_config).2)
        ++ [("_context_", PValue.vstr u)]) "_uuid_" = some (PValue.vstr a.uuid) := by
      rw [dget_append, h3]
    have h4b : ddel ((("_uuid_", PValue.vstr a.uuid) :: comOf (a.get_construct_config).2)
        ++ [("_context_", PValue.vstr u)]) "_uuid_"
        = comOf (a.get_construct_config).2 ++ [("_context_", PValue.vstr u)] := by
      rw [ddel_append, h4]
      rw [show ddel [("_context_", PValue.vstr u)] "_uuid_"
          = [("_context_", PValue.vstr u)] from rfl]
    have h5 : dget (comOf (a.get_construct_config).2 ++ [("_context_", PValue.vstr u)])
        "_context_" = some (PValue.vstr u) := by
      rw [dget_append, hnoctx]
      exact dget_cons_self _ _ _
    have h6 : ddel (comOf (a.get_construct_config).2 ++ [("_context_", PValue.vstr u)])
        "_context_" = comOf (a.get_construct_config).2 := by
      rw [ddel_append]
      rw [ddel_eq_self_of_forall (fun kv hkv => (hcomclean2 kv hkv).2.2)]
      rw [show ddel [("_context_", PValue.vstr u)] "_context_" = [] from rfl]
      rw [List.append_nil]
    refine ⟨(mkActionNode a.cls a.spec (.node n.oid n.nodeUuid) a.uuid).apply_construct_config
        (comOf (a.get_construct_config).2), ?_, ?_⟩
    · rw [parseActions]
      simp only [h1, h2, h3b, h4b, htbl, h5, hNget, h6]
    · rw [hsaved2]
      rw [apply_comOf_spec (a.get_construct_config).2 a.cls a.spec (.node n.oid n.nodeUuid)
        a.uuid hcomname hcomout]
      refine ⟨hfcls.symm, hfspec.symm, hfuuid.symm, rfl, rfl, ?_, ?_⟩
      · rw [show (((a.get_construct_config).2).get_construct_config).1
            = comOf (a.get_construct_config).2 from by rw [gcc_second_call, hcom_cc]]
        exact gcc_fst_of_loaded (a.get_construct_config).2 _ rfl rfl rfl tail hcomeq
          htailname hcomnodup hcomname hcomout
      · show ctxBindEquiv (CtxKey.node n.oid n.nodeUuid) ((a.get_construct_config).2).context_key
        rw [hfck, hck]
        exact hnu

/-- The action loop of `parse_save_config` over well-formed actions:
nothing is raised, and the loaded action list is pointwise equivalent to
the saved one. -/
theorem parseActions_strong (tblA : ActClassTbl) (N : List (String × DataNode)) :
    ∀ (acts : List ActionNode) (c : Container) (recs : List AList),
      (∀ a ∈ acts, ActionWF tblA N a) →
      ∃ las recs2,
        parseActions tblA N c recs (acts.map (fun a => (a.get_save_config).1))
          = .ok ({ c with actions := c.actions ++ las }, recs2)
        ∧ List.Forall₂ actionEquiv las (acts.map (fun a => (a.get_save_config).2)) := by
  intro acts
  induction acts with
  | nil =>
    intro c recs _
    refine ⟨[], recs, ?_, List.Forall₂.nil⟩
    show Except.ok (c, recs) = _
    rw [show ({ c with actions := c.actions ++ [] } : Container) = c from by
      rw [List.append_nil]]
  | cons a acts2 ih =>
    intro c recs hWF
    obtain ⟨la, hstep, hequiv⟩ := parseActions_step tblA N a (hWF a (by simp)) c recs
      (acts2.map (fun x => (x.get_save_config).1))
    obtain ⟨las2, recs2, heq2, hf2⟩ := ih { c with actions := c.actions ++ [la] }
      (recs ++ [comOf (a.get_construct_config).2]) (fun x hx => hWF x (by simp [hx]))
    refine ⟨la :: las2, recs2, ?_, List.Forall₂.cons hequiv hf2⟩
    show parseActions tblA N c recs
        ((a.get_save_config).1 :: acts2.map (fun x => (x.get_save_config).1)) = _
    rw [hstep, heq2]
    have hact : ({ c with actions := c.actions ++ [la] } : Container).actions ++ las2
        = c.actions ++ (la :: las2) := by
      show (c.actions ++ [la]) ++ las2 = _
      rw [List.append_assoc]
      rfl
    rw [hact]

/-- The initial load state of `parse_save_config`. -/
def gLoad0 (oid0 : Nat) : GLoad :=
  { nodes := [], container := Container.empty, recordsOut := [], nextOid := oid0 }

theorem save_foldl_spec : ∀ (acts : List ActionNode) (acc : List AList × List ActionNode),
    acts.foldl (fun (acc : List AList × List ActionNode) a =>
      let (cfg, a1) := a.get_save_config
      (acc.1 ++ [cfg], acc.2 ++ [a1])) acc
    = (acc.1 ++ acts.map (fun a => (a.get_save_config).1),
       acc.2 ++ acts.map (fun a => (a.get_save_config).2)) := by
  intro acts
  induction acts with
  | nil => intro acc; simp
  | cons a rest ih =>
    intro acc
    show rest.foldl _ (acc.1 ++ [(a.get_save_config).1], acc.2 ++ [(a.get_save_config).2]) = _
    rw [ih]
    show ((acc.1 ++ [(a.get_save_config).1]) ++ _, (acc.2 ++ [(a.get_save_config).2]) ++ _) = _
    simp [List.append_assoc]

/-- Pointwise match between the reconstructed global nodes and the saved
ones. -/
theorem loadedNodes_matches (tblD : DataClassTbl) :
    ∀ (origs : List DataNode) (o : Nat),
      (∀ x ∈ origs, DataNodeWF tblD x) →
      List.Forall₂ (fun l d => l.cls = d.cls ∧ l.nodeUuid = d.nodeUuid
          ∧ l.nodeName = d.nodeName ∧ publicAttrs l = publicAttrs d)
        (loadedNodes tblD origs o) origs := by
  intro origs
  induction origs with
  | nil => intro o _; exact List.Forall₂.nil
  | cons d ds ih =>
    intro o hWF
    have hspec := loadedNode_spec tblD d o (hWF d (by simp))
    exact List.Forall₂.cons ⟨hspec.1, hspec.2.2.1, hspec.2.2.2.1, hspec.2.2.2.2⟩
      (ih (o + 1) (fun x hx => hWF x (by simp [hx])))

/-- Every uuid of a saved global node resolves in the reconstructed node
map, to a node carrying that same uuid. -/
theorem dget_loadedPairs (tblD : DataClassTbl) :
    ∀ (origs : List DataNode) (o : Nat) (u : String),
      (∀ x ∈ origs, DataNodeWF tblD x) →
      (∃ d ∈ origs, d.nodeUuid = u) →
      ∃ n2, dget (loadedPairs tblD origs o) u = some n2 ∧ n2.nodeUuid = u := by
  intro origs
  induction origs with
  | nil =>
    intro o u _ h
    obtain ⟨d, hd, _⟩ := h
    cases hd
  | cons d ds ih =>
    intro o u hWF hex
    by_cases hu : d.nodeUuid = u
    · refine ⟨loadedNode tblD d o, ?_, ?_⟩
      · show dget ((d.nodeUuid, loadedNode tblD d o) :: loadedPairs tblD ds (o + 1)) u = _
        rw [hu]
        exact dget_cons_self _ _ _
      · rw [(loadedNode_spec tblD d o (hWF d (by simp))).2.2.1]
        exact hu
    · obtain ⟨d2, hd2, he2⟩ := hex
      rcases List.mem_cons.mp hd2 with he | hm
      · exact absurd (he ▸ he2) hu
      · obtain ⟨n2, hg, hnu⟩ := ih (o + 1) u (fun x hx => hWF x (by simp [hx])) ⟨d2, hm, he2⟩
        refine ⟨n2, ?_, hnu⟩
        show dget ((d.nodeUuid, loadedNode tblD d o) :: loadedPairs tblD ds (o + 1)) u = _
        rw [dget_cons_ne _ _ _ _ hu]
        exact hg

/-- Well-formedness of a whole container, as the GUI itself produces it:
well-formed global nodes with distinct uuids in a consistently bucketed
Global context, and well-formed actions whose context keys are `GCK` or
one of those global nodes. -/
def ContainerWF (tblD : DataClassTbl) (tblA : ActClassTbl) (c : Container) : Prop :=
  (∀ d ∈ c.GlobalContext.nodeIter, DataNodeWF tblD d)
  ∧ ((c.GlobalContext.map Prod.fst).Nodup)
  ∧ (∀ b ∈ c.GlobalContext, ((b.2.map Prod.fst).Nodup
      ∧ ∀ nv ∈ b.2, nv.2.cls = b.1 ∧ nv.2.nodeName = nv.1))
  ∧ ((c.GlobalContext.nodeIter.map DataNode.nodeUuid).Nodup)
  ∧ (∀ a ∈ c.actions,
      tblA a.cls = some a.spec
      ∧ (a.construct_config.map Prod.fst).Nodup
      ∧ (∀ k ∈ a.construct_config.map Prod.fst,
          k ≠ "_uuid_" ∧ k ≠ "_class_" ∧ k ≠ "_context_")
      ∧ (dget a.construct_config "name" = none
          ∨ dget a.construct_config "name" = some (.vstr a.name))
      ∧ (dget a.construct_config "out_name" = none
          ∨ dget a.construct_config "out_name" = a.out_name.map (fun o => PValue.vstr o))
      ∧ (∀ kp ∈ a.spec.sigParams,
          kp.1 ≠ "_uuid_" ∧ kp.1 ≠ "_class_" ∧ kp.1 ≠ "_context_"
          ∧ kp.1 ≠ "name" ∧ kp.1 ≠ "out_name")
      ∧ (a.context_key = .gck
          ∨ ∃ o u, a.context_key = .node o u ∧ ∃ d ∈ c.GlobalContext.nodeIter, d.nodeUuid = u))

/-- C1 (amended): `parse_save_config` applied to `get_save_config`'s
output raises nothing and reproduces every global node (class, uuid,
display name and full public `__dict__` slice; only the Python object
identity is fresh) in the same `NodeIter` order, and every action (class,
signature, uuid, name, out name, combined construct config, and context
binding up to the identity of the bound node object; the volatile run
status is reset to CONFIGURED by load) in the same order -- provided the
container is well formed: nodes as the constructors build them with plain
stable public values, distinct uuids, consistent Global buckets, actions
with clean duplicate-free stored configs consistent with their
`name`/`out_name`, clean signature parameter names, and context keys that
are `GCK` or a live global node.  Reachable states violate these premises
(e.g. a node renamed to a placeholder-shaped string), so the premises are
genuinely needed: see the counterexample. -/
theorem dac_c1_amended (tblD : DataClassTbl) (tblA : ActClassTbl) (c : Container)
    (oid0 : Nat) (hWF : ContainerWF tblD tblA c) :
    match Container.parse_save_config tblD tblA (c.get_save_config).1 oid0 with
    | .ok res =>
        List.Forall₂ (fun l d => l.cls = d.cls ∧ l.nodeUuid = d.nodeUuid
            ∧ l.nodeName = d.nodeName ∧ publicAttrs l = publicAttrs d)
          res.1.GlobalContext.nodeIter c.GlobalContext.nodeIter
        ∧ List.Forall₂ actionEquiv res.1.actions ((c.get_save_config).2).actions
    | .error _ => False := by
  obtain ⟨hnodeWF, hclsnodup, hbucketWF, huuidnodup, hactWF⟩ := hWF
  have hsa : ((c.get_save_config).1).actions = c.actions.map (fun a => (a.get_save_config).1) := by
    show (c.actions.foldl _ ([], [])).1 = _
    rw [save_foldl_spec]
    rfl
  have hsa2 : ((c.get_save_config).2).actions
      = c.actions.map (fun a => (a.get_save_config).2) := by
    show (c.actions.foldl _ ([], [])).2 = _
    rw [save_foldl_spec]
    rfl
  have hG := parseGlobals_strong tblD c.GlobalContext.nodeIter (gLoad0 oid0) hnodeWF
  have hnodes := gLoadAll_nodes tblD c.GlobalContext.nodeIter (gLoad0 oid0)
    (fun x hx => rfl) huuidnodup
  have hcont := gLoadAll_container tblD c.GlobalContext.nodeIter (gLoad0 oid0)
  set st := gLoadAll tblD (gLoad0 oid0) c.GlobalContext.nodeIter with hst
  have hactWF2 : ∀ a ∈ c.actions, ActionWF tblA st.nodes a := by
    intro a ha
    obtain ⟨h1, h2, h3, h4, h5, h6, h7⟩ := hactWF a ha
    refine ⟨h1, h2, h3, h4, h5, h6, ?_⟩
    rcases h7 with hg | ⟨o, u, hck, d, hd, hdu⟩
    · exact Or.inl hg
    · obtain ⟨n2, hg2, hnu2⟩ := dget_loadedPairs tblD c.GlobalContext.nodeIter oid0 u
        hnodeWF ⟨d, hd, hdu⟩
      refine Or.inr ⟨o, u, n2, hck, ?_, hnu2⟩
      rw [hnodes]
      exact hg2
  obtain ⟨las, recs2, hAeq, hAf⟩ :=
    parseActions_strong tblA st.nodes c.actions st.container [] hactWF2
  have hparse : Container.parse_save_config tblD tblA (c.get_save_config).1 oid0
      = .ok ({ st.container with actions := st.container.actions ++ las },
             { actions := recs2, global_nodes := st.recordsOut }, st.nextOid) := by
    show (match parseGlobals tblD (gLoad0 oid0) ((c.get_save_config).1).global_nodes with
      | Except.error e => Except.error e
      | Except.ok st2 => match parseActions tblA st2.nodes st2.container []
          ((c.get_save_config).1).actions with
        | Except.error e => Except.error e
        | Except.ok (c2, arecs) =>
            Except.ok (c2, ({ actions := arecs, global_nodes := st2.recordsOut } : SaveConfig),
              st2.nextOid)) = _
    rw [show ((c.get_save_config).1).global_nodes
        = c.GlobalContext.nodeIter.map DataNode.get_save_config from rfl]
    rw [hG]
    show (match parseActions tblA st.nodes st.container []
        ((c.get_save_config).1).actions with
      | Except.error e => Except.error e
      | Except.ok (c2, arecs) =>
          Except.ok (c2, ({ actions := arecs, global_nodes := st.recordsOut } : SaveConfig),
            st.nextOid)) = _
    rw [hsa, hAeq]
  rw [hparse]
  refine ⟨?_, ?_⟩
  · have hGC : ({ st.container with actions := st.container.actions ++ las }
        : Container).GlobalContext
        = foldAdd ([] : DataContext) (loadedNodes tblD c.GlobalContext.nodeIter oid0) := by
      rw [show ({ st.container with actions := st.container.actions ++ las }
          : Container).GlobalContext
          = st.container.GlobalContext from getContext_eq_of_contexts rfl .gck]
      rw [hcont.1]
      rfl
    have hmatch2 : List.Forall₂ (fun l o => l.cls = o.cls ∧ l.nodeName = o.nodeName)
        (loadedNodes tblD c.GlobalContext.nodeIter oid0) c.GlobalContext.nodeIter :=
      List.Forall₂.imp (fun l d h => ⟨h.1, h.2.2.1⟩)
        (loadedNodes_matches tblD c.GlobalContext.nodeIter oid0 hnodeWF)
    have hiter := nodeIter_foldAdd c.GlobalContext
      (loadedNodes tblD c.GlobalContext.nodeIter oid0) []
      hclsnodup (fun b hb => rfl) hbucketWF hmatch2
    rw [hGC, hiter.1]
    show List.Forall₂ _ (loadedNodes tblD c.GlobalContext.nodeIter oid0) _
    exact loadedNodes_matches tblD c.GlobalContext.nodeIter oid0 hnodeWF
  · have hacts : ({ st.container with actions := st.container.actions ++ las }
        : Container).actions = las := by
      show st.container.actions ++ las = las
      rw [hcont.2]
      rfl
    rw [hacts, hsa2]
    exact hAf

/-- Data-class table for the C1 witness. -/
def c1wtblD : DataClassTbl :=
  fun s => if s = "TimeData" then some [("descr", .vstr "plain")] else none

/-- Action signature for the C1 witness: one defaulted parameter besides
`self`, no return annotation. -/
def c1wspec : ActionClass :=
  { caption := "Do thing"
    sigParams := [("self", { default := none, ann := .empty }),
                  ("length", { default := some (.vint 5), ann := .basic "int" })]
    retAnn := none }

/-- Action-class table for the C1 witness. -/
def c1wtblA : ActClassTbl := fun s => if s = "DoThing" then some c1wspec else none

/-- The C1 witness's single global node. -/
def c1wd1 : DataNode := mkDataNode "TimeData" [("descr", .vstr "plain")] "My node" "u-1" 1

/-- A configured `GCK`-bound action. -/
def c1wact1 : ActionNode :=
  { cls := "DoThing", spec := c1wspec, uuid := "a-1", name := "First",
    status := .CONFIGURED, out_name := none,
    construct_config := [("length", .vint 7), ("name", .vstr "First")],
    context_key := .gck }

/-- A freshly created, never-configured action bound to the global
node. -/
def c1wact2 : ActionNode :=
  { cls := "DoThing", spec := c1wspec, uuid := "a-2", name := "Do thing",
    status := .INIT, out_name := none, construct_config := [],
    context_key := .node 1 "u-1" }

/-- The C1 witness container. -/
def c1w : Container :=
  { actions := [c1wact1, c1wact2]
    contexts := [(.gck, [("TimeData", [("My node", c1wd1)])])]
    current_key := .gck }

theorem c1wWF : ContainerWF c1wtblD c1wtblA c1w := by
  refine ⟨?_, by decide, by decide, by decide, ?_⟩
  · intro d hd
    rw [show c1w.GlobalContext.nodeIter = [c1wd1] from rfl] at hd
    rw [List.mem_singleton] at hd
    subst hd
    exact ⟨.vnone, .vdict .nil, [("descr", .vstr "plain")], [("descr", .vstr "plain")],
      by decide, by decide, by decide, by decide, by decide⟩
  · intro a ha
    rw [show c1w.actions = [c1wact1, c1wact2] from rfl] at ha
    rcases List.mem_cons.mp ha with he | ha2
    · subst he
      exact ⟨rfl, by decide, by decide, Or.inr (by decide), Or.inl (by decide),
        by decide, Or.inl rfl⟩
    · rw [List.mem_singleton] at ha2
      subst ha2
      exact ⟨rfl, by decide, by decide, Or.inl rfl, Or.inl rfl, by decide,
        Or.inr ⟨1, "u-1", rfl, c1wd1, by decide, by decide⟩⟩

/-- Witness for the amended C1: a concrete well-formed container (one
global node, one configured `GCK` action, one fresh node-bound action)
satisfies the premises, and the round trip reproduces it. -/
theorem dac_c1_amended_witness :
    ContainerWF c1wtblD c1wtblA c1w
    ∧ (match Container.parse_save_config c1wtblD c1wtblA (c1w.get_save_config).1 50 with
       | .ok res =>
           List.Forall₂ (fun l d => l.cls = d.cls ∧ l.nodeUuid = d.nodeUuid
               ∧ l.nodeName = d.nodeName ∧ publicAttrs l = publicAttrs d)
             res.1.GlobalContext.nodeIter c1w.GlobalContext.nodeIter
           ∧ List.Forall₂ actionEquiv res.1.actions ((c1w.get_save_config).2).actions
       | .error _ => False) :=
  ⟨c1wWF, dac_c1_amended c1wtblD c1wtblA c1w 50 c1wWF⟩

/-- Concrete state for the C5 witness: a non-Global current context that
lacks `("T","X")` while the Global context has it. -/
def c5g : DataNode := mkDataNode "T" [] "X" "uuid-g" 21

def c5cont : Container :=
  { actions := []
    contexts := [(.gck, [("T", [("X", c5g)])]), (.node 22 "uuid-m", [])]
    current_key := .node 22 "uuid-m" }

/-- Witness for C5: the fallback lookup returns the Global node, and an
unresolvable scalar name raises `NodeNotFoundError` naming node and
type. -/
theorem dac_c5_witness :
    c5cont.get_node_of_type "X" "T" = some c5g
    ∧ getValueOfAnnotation c5cont (.dataNode "T") (.vstr "Y")
      = .error (.nodeNotFound "Node 'Y' of 'T' not found.") :=
  ⟨(dac_c5 c5cont "T" "X").1 c5g (by decide) (by decide) (by decide),
   (dac_c5 c5cont "T" "Y").2.2.2 (by decide)⟩

end DAC
